import Mathlib

/-!
Verification of the financial report aggregation subsystem:
date-range normalization (`src/server/http/date-range.ts`),
bucket-key derivation and the chart builder
(`src/server/reports/financial-movements-chart.ts`),
the tabular report builder (`src/server/reports/financial-reports.ts`,
re-exported through `financial-granularity.ts`), and the CSV encoder
(`src/server/reports/financial-report-csv.ts`).

Timestamps are modelled as integers (milliseconds since the Unix epoch,
the value of `Date.prototype.getTime`).  The UTC calendar getters of the
JavaScript `Date` object (`getUTCFullYear`, `getUTCMonth`, `getUTCDate`,
`getUTCDay`) are modelled by the proleptic-Gregorian civil-from-days
conversion below; `Date.UTC`/`setUTCDate` normalization is modelled by
the inverse days-from-civil conversion, which ECMAScript's
`MakeDay`/`MakeDate` compute.  Monetary amounts are modelled as integers
(`Number(t.amount)` on the decimal column); the claims under study are
exact algebraic identities that do not depend on float rounding.
All integer divisions below are by positive constants, where Lean's `/`
and `%` on `Int` (flooring/Euclidean) agree with the intended
mathematical floor division.
-/

/-- Milliseconds per day, the constant ECMAScript uses for `Date` math. -/
def msPerDay : Int := 86400000

/-- The day number containing a timestamp (ECMAScript `Day(t)`,
`floor(t / msPerDay)`). -/
def dayNumber (ts : Int) : Int := ts / 86400000

/-- Milliseconds elapsed within the day (ECMAScript `TimeWithinDay`). -/
def timeWithinDay (ts : Int) : Int := ts % 86400000

/-- Convert a day number (days since 1970-01-01) to the proleptic
Gregorian civil date `(year, month, day)` with `month ∈ [1,12]` and
`day ∈ [1,31]`.  This is the standard `civil_from_days` algorithm and
models the UTC calendar getters of a JavaScript `Date`. -/
def civilFromDays (z0 : Int) : Int × Int × Int :=
  let z := z0 + 719468
  let era := z / 146097
  let doe := z % 146097
  let yoe := (doe - doe / 1460 + doe / 36524 - doe / 146096) / 365
  let y := yoe + era * 400
  let doy := doe - (365 * yoe + yoe / 4 - yoe / 100)
  let mp := (5 * doy + 2) / 153
  let d := doy - (153 * mp + 2) / 5 + 1
  let m := if mp < 10 then mp + 3 else mp - 9
  (if m ≤ 2 then y + 1 else y, m, d)

/-- Convert a civil date to a day number (the standard `days_from_civil`
algorithm, modelling ECMAScript `MakeDay`).  `d` ranges over all of `Int`
so that out-of-range day-of-month values normalize exactly the way
`Date.UTC` / `setUTCDate` normalize them. -/
def daysFromCivil (y m d : Int) : Int :=
  let y1 := if m ≤ 2 then y - 1 else y
  let era := y1 / 400
  let yoe := y1 - era * 400
  let mp := (m + 9) % 12
  let doy := (153 * mp + 2) / 5 + d - 1
  let doe := yoe * 365 + yoe / 4 - yoe / 100 + doy
  era * 146097 + doe - 719468

set_option maxHeartbeats 4000000 in
/-- Day-of-year bounds inside the civil-from-days computation: the day
offset into the (March-based) year always lies in `[0, 365]`. -/
theorem civil_doy_bounds (doe yoe doy : Int)
    (h1 : 0 ≤ doe) (h2 : doe < 146097)
    (hyoe : yoe = (doe - doe / 1460 + doe / 36524 - doe / 146096) / 365)
    (hdoy : doy = doe - (365 * yoe + yoe / 4 - yoe / 100)) :
    0 ≤ doy ∧ doy ≤ 365 := by
  have hb1 : 0 ≤ yoe := by omega
  have hb2 : yoe ≤ 399 := by omega
  interval_cases yoe <;> omega

/-- Months produced by `civilFromDays` lie in `[1, 12]` and days in
`[1, 31]`. -/
theorem civilFromDays_bounds (z : Int) :
    1 ≤ (civilFromDays z).2.1 ∧ (civilFromDays z).2.1 ≤ 12 ∧
    1 ≤ (civilFromDays z).2.2 ∧ (civilFromDays z).2.2 ≤ 31 := by
  unfold civilFromDays
  dsimp only
  set doe := (z + 719468) % 146097 with hdoe
  set yoe := (doe - doe / 1460 + doe / 36524 - doe / 146096) / 365 with hyoe
  set doy := doe - (365 * yoe + yoe / 4 - yoe / 100) with hdoy
  have hdoeB : 0 ≤ doe ∧ doe < 146097 := by omega
  have hdoyB : 0 ≤ doy ∧ doy ≤ 365 :=
    civil_doy_bounds doe yoe doy hdoeB.1 hdoeB.2 hyoe hdoy
  split_ifs <;> (refine ⟨by omega, by omega, by omega, by omega⟩)

/-- Evaluation of `daysFromCivil` on the year/month shape that
`civilFromDays` produces, in terms of the era/year-of-era/month-prime
decomposition. -/
theorem daysFromCivil_decomp (era yoe mp dd : Int)
    (hyoe : 0 ≤ yoe ∧ yoe ≤ 399) (hmp : 0 ≤ mp ∧ mp ≤ 11) :
    daysFromCivil
        (if (if mp < 10 then mp + 3 else mp - 9) ≤ 2 then yoe + era * 400 + 1
          else yoe + era * 400)
        (if mp < 10 then mp + 3 else mp - 9) dd
      = era * 146097 +
          (yoe * 365 + yoe / 4 - yoe / 100 + ((153 * mp + 2) / 5 + dd - 1)) - 719468 := by
  unfold daysFromCivil
  dsimp only
  split_ifs <;> omega

/-- The two calendar conversions are mutually inverse: converting a day
number to a civil date and back is the identity. -/
theorem daysFromCivil_civilFromDays (z : Int) :
    daysFromCivil (civilFromDays z).1 (civilFromDays z).2.1 (civilFromDays z).2.2 = z := by
  unfold civilFromDays
  dsimp only
  set doe := (z + 719468) % 146097 with hdoe
  set era := (z + 719468) / 146097 with hera
  set yoe := (doe - doe / 1460 + doe / 36524 - doe / 146096) / 365 with hyoe
  set doy := doe - (365 * yoe + yoe / 4 - yoe / 100) with hdoy
  set mp := (5 * doy + 2) / 153 with hmp
  have hdoeB : 0 ≤ doe ∧ doe < 146097 := by omega
  have hyoeB : 0 ≤ yoe ∧ yoe ≤ 399 := by omega
  have hdoyB : 0 ≤ doy ∧ doy ≤ 365 :=
    civil_doy_bounds doe yoe doy hdoeB.1 hdoeB.2 hyoe hdoy
  have hmpB : 0 ≤ mp ∧ mp ≤ 11 := by omega
  rw [daysFromCivil_decomp era yoe mp _ hyoeB hmpB]
  omega

/-- `daysFromCivil` is affine in its day argument: bumping the
day-of-month by `k` moves the day number by exactly `k` (this is why
`setUTCDate(getUTCDate() + k)` always shifts a date by `k` days). -/
theorem daysFromCivil_add_day (y m d k : Int) :
    daysFromCivil y m (d + k) = daysFromCivil y m d + k := by
  unfold daysFromCivil
  dsimp only
  split <;> omega

/-! ### Decimal rendering

JavaScript template literals render numbers with `String(n)`: decimal
digits without leading zeros, prefixed by `-` for negative values.  The
renderers below model that, at the level of character lists. -/

/-- The ASCII digit character for `n < 10`. -/
def digitChar (n : Nat) : Char := Char.ofNat (48 + n)

/-- Fuel-driven decimal rendering of a natural number (most significant
digit first).  The fuel is only a structural-recursion device; it is
irrelevant as soon as it exceeds the argument. -/
def natCharsAux : Nat → Nat → List Char
  | 0, _ => []
  | fuel + 1, n =>
    if n < 10 then [digitChar n]
    else natCharsAux fuel (n / 10) ++ [digitChar (n % 10)]

/-- Decimal rendering of a natural number, the value of `String(n)`. -/
def natChars (n : Nat) : List Char := natCharsAux (n + 1) n

theorem natCharsAux_irrel (f1 : Nat) : ∀ f2 n, n < f1 → n < f2 →
    natCharsAux f1 n = natCharsAux f2 n := by
  induction f1 with
  | zero => intro f2 n h1 _; omega
  | succ f ih =>
    intro f2 n h1 h2
    cases f2 with
    | zero => omega
    | succ f2 =>
      show natCharsAux (f + 1) n = natCharsAux (f2 + 1) n
      unfold natCharsAux
      split
      · rfl
      · have hd : n / 10 < n := Nat.div_lt_self (by omega) (by omega)
        rw [ih f2 (n / 10) (by omega) (by omega)]

/-- Unfolding rule for `natChars`. -/
theorem natChars_eq (n : Nat) :
    natChars n = if n < 10 then [digitChar n]
      else natChars (n / 10) ++ [digitChar (n % 10)] := by
  show (if n < 10 then [digitChar n] else natCharsAux n (n / 10) ++ [digitChar (n % 10)]) = _
  split
  · rfl
  · next h =>
    have hd : n / 10 < n := Nat.div_lt_self (by omega) (by omega)
    rw [natCharsAux_irrel n (n / 10 + 1) (n / 10) (by omega) (by omega)]
    rfl

/-- Numeric value of an ASCII digit character. -/
def digitVal (c : Char) : Nat := c.toNat - 48

/-- The number denoted by a big-endian list of decimal digit characters. -/
def charsVal (cs : List Char) : Nat := cs.foldl (fun a c => 10 * a + digitVal c) 0

theorem digitChar_toNat {n : Nat} (h : n < 10) : (digitChar n).toNat = 48 + n := by
  interval_cases n <;> rfl

theorem charsVal_append_digit (xs : List Char) (c : Char) :
    charsVal (xs ++ [c]) = 10 * charsVal xs + digitVal c := by
  unfold charsVal
  rw [List.foldl_append]
  rfl

/-- Rendering then evaluating a natural number is the identity; hence the
rendering is injective. -/
theorem charsVal_natChars (n : Nat) : charsVal (natChars n) = n := by
  induction n using Nat.strong_induction_on with
  | _ n ih =>
    rw [natChars_eq]
    split
    · next h =>
      show charsVal [digitChar n] = n
      unfold charsVal
      simp [digitVal, digitChar_toNat h]
    · next h =>
      rw [charsVal_append_digit,
          ih (n / 10) (Nat.div_lt_self (by omega) (by omega))]
      have h10 : n % 10 < 10 := Nat.mod_lt _ (by omega)
      unfold digitVal
      rw [digitChar_toNat h10]
      omega

theorem natChars_inj {a b : Nat} (h : natChars a = natChars b) : a = b := by
  have ha := charsVal_natChars a
  have hb := charsVal_natChars b
  rw [h] at ha
  omega

/-- Every character of a rendered natural number is an ASCII digit. -/
theorem natChars_digits (n : Nat) : ∀ c ∈ natChars n, 48 ≤ c.toNat ∧ c.toNat ≤ 57 := by
  induction n using Nat.strong_induction_on with
  | _ n ih =>
    rw [natChars_eq]
    split
    · next h =>
      intro c hc
      simp only [List.mem_singleton] at hc
      subst hc
      rw [digitChar_toNat h]
      omega
    · next h =>
      intro c hc
      rw [List.mem_append] at hc
      rcases hc with hc | hc
      · exact ih (n / 10) (Nat.div_lt_self (by omega) (by omega)) c hc
      · simp only [List.mem_singleton] at hc
        subst hc
        rw [digitChar_toNat (Nat.mod_lt _ (by omega))]
        omega

theorem natChars_ne_nil (n : Nat) : natChars n ≠ [] := by
  rw [natChars_eq]
  split
  · simp
  · simp

/-- Decimal rendering of an integer, the value of `String(n)` for an
integral JavaScript number. -/
def intChars (z : Int) : List Char :=
  if z < 0 then '-' :: natChars (-z).toNat else natChars z.toNat

theorem intChars_inj {a b : Int} (h : intChars a = intChars b) : a = b := by
  unfold intChars at h
  split_ifs at h with h1 h2 h2
  · have := natChars_inj (List.cons.injEq .. ▸ h).2
    omega
  · exfalso
    have hm : '-' ∈ natChars b.toNat := by
      rw [← h]; exact List.mem_cons_self _ _
    have h48 := (natChars_digits b.toNat '-' hm).1
    have h45 : ('-' : Char).toNat = 45 := rfl
    omega
  · exfalso
    have hm : '-' ∈ natChars a.toNat := by
      rw [h]; exact List.mem_cons_self _ _
    have h48 := (natChars_digits a.toNat '-' hm).1
    have h45 : ('-' : Char).toNat = 45 := rfl
    omega
  · have := natChars_inj h
    omega

/-- Characters of a rendered integer are digits or a leading minus sign;
in particular no newline, comma, quote or carriage return occurs. -/
theorem intChars_chars (z : Int) :
    ∀ c ∈ intChars z, c.toNat = 45 ∨ (48 ≤ c.toNat ∧ c.toNat ≤ 57) := by
  unfold intChars
  split
  · intro c hc
    rcases List.mem_cons.mp hc with hc | hc
    · subst hc; left; rfl
    · right; exact natChars_digits _ c hc
  · intro c hc
    right; exact natChars_digits _ c hc

/-- `String(n).padStart(2, "0")`. -/
def padStart2 (s : List Char) : List Char :=
  if s.length < 2 then List.replicate (2 - s.length) '0' ++ s else s

/-- The source's `pad2` helper: 2-digit zero-padded rendering. -/
def pad2 (n : Int) : List Char := padStart2 (intChars n)

/-- In the range `[0, 100)` seen by month and day numbers, `pad2`
renders exactly two digit characters. -/
theorem pad2_eq_of_lt (n : Int) (h0 : 0 ≤ n) (h : n < 100) :
    pad2 n = if n < 10 then ['0', digitChar n.toNat]
      else [digitChar (n.toNat / 10), digitChar (n.toNat % 10)] := by
  have hic : intChars n = natChars n.toNat := by
    unfold intChars
    rw [if_neg (by omega)]
  by_cases h10 : n < 10
  · have h1 : natChars n.toNat = [digitChar n.toNat] := by
      rw [natChars_eq, if_pos (by omega)]
    unfold pad2 padStart2
    rw [hic, h1, if_pos h10]
    rfl
  · have h1 : natChars n.toNat = [digitChar (n.toNat / 10), digitChar (n.toNat % 10)] := by
      rw [natChars_eq, if_neg (by omega), natChars_eq, if_pos (by omega)]
      rfl
    unfold pad2 padStart2
    rw [hic, h1, if_neg h10]
    rfl

theorem pad2_length (n : Int) (h0 : 0 ≤ n) (h : n < 100) : (pad2 n).length = 2 := by
  rw [pad2_eq_of_lt n h0 h]
  split <;> rfl

theorem pad2_inj {a b : Int} (ha0 : 0 ≤ a) (ha : a < 100) (hb0 : 0 ≤ b) (hb : b < 100)
    (h : pad2 a = pad2 b) : a = b := by
  rw [pad2_eq_of_lt a ha0 ha, pad2_eq_of_lt b hb0 hb] at h
  split_ifs at h with h1 h2 h2 <;>
    simp only [List.cons.injEq, and_true] at h
  · have := congrArg Char.toNat h.2
    rw [digitChar_toNat (by omega), digitChar_toNat (by omega)] at this
    omega
  · exfalso
    have := congrArg Char.toNat h.1
    rw [show ('0' : Char).toNat = 48 from rfl,
        digitChar_toNat (show b.toNat / 10 < 10 by omega)] at this
    omega
  · exfalso
    have := congrArg Char.toNat h.1
    rw [show ('0' : Char).toNat = 48 from rfl,
        digitChar_toNat (show a.toNat / 10 < 10 by omega)] at this
    omega
  · have hq := congrArg Char.toNat h.1
    have hr := congrArg Char.toNat h.2
    rw [digitChar_toNat (show a.toNat / 10 < 10 by omega),
        digitChar_toNat (show b.toNat / 10 < 10 by omega)] at hq
    rw [digitChar_toNat (show a.toNat % 10 < 10 by omega),
        digitChar_toNat (show b.toNat % 10 < 10 by omega)] at hr
    omega

/-! ### UTC calendar getters and bucket keys -/

/-- `Date.prototype.getUTCFullYear`. -/
def getUTCFullYear (ts : Int) : Int := (civilFromDays (dayNumber ts)).1

/-- `Date.prototype.getUTCMonth` (0-based, as in JavaScript). -/
def getUTCMonth (ts : Int) : Int := (civilFromDays (dayNumber ts)).2.1 - 1

/-- `Date.prototype.getUTCDate` (day of month, 1-based). -/
def getUTCDate (ts : Int) : Int := (civilFromDays (dayNumber ts)).2.2

/-- `Date.prototype.getUTCDay` (0 = Sunday … 6 = Saturday; day 0 of the
epoch, 1970-01-01, was a Thursday). -/
def getUTCDay (ts : Int) : Int := (dayNumber ts + 4) % 7

/-- Reassembling a timestamp's civil getters with `MakeDay` recovers its
day number (ECMAScript `Date.UTC(getUTCFullYear, getUTCMonth, getUTCDate)`
at midnight). -/
theorem makeDay_getters (ts : Int) :
    daysFromCivil (getUTCFullYear ts) (getUTCMonth ts + 1) (getUTCDate ts) = dayNumber ts := by
  unfold getUTCFullYear getUTCMonth getUTCDate
  rw [show (civilFromDays (dayNumber ts)).2.1 - 1 + 1
      = (civilFromDays (dayNumber ts)).2.1 by ring]
  exact daysFromCivil_civilFromDays (dayNumber ts)

/-- Character list of the template literal `${y}-${pad2(m)}`. -/
def monthKeyChars (y m : Int) : List Char := intChars y ++ '-' :: pad2 m

/-- Character list of the template literal `${y}-${pad2(m)}-${pad2(d)}`. -/
def dayKeyChars (y m d : Int) : List Char :=
  intChars y ++ ('-' :: pad2 m) ++ ('-' :: pad2 d)

theorem monthKeyChars_inj {y1 m1 y2 m2 : Int}
    (hm1 : 0 ≤ m1 ∧ m1 < 100) (hm2 : 0 ≤ m2 ∧ m2 < 100)
    (h : monthKeyChars y1 m1 = monthKeyChars y2 m2) : y1 = y2 ∧ m1 = m2 := by
  unfold monthKeyChars at h
  have hlen : ('-' :: pad2 m1).length = ('-' :: pad2 m2).length := by
    simp [pad2_length m1 hm1.1 hm1.2, pad2_length m2 hm2.1 hm2.2]
  obtain ⟨hy, hs⟩ := List.append_inj' h hlen
  refine ⟨intChars_inj hy, ?_⟩
  have hp : pad2 m1 = pad2 m2 := by
    injection hs
  exact pad2_inj hm1.1 hm1.2 hm2.1 hm2.2 hp

theorem dayKeyChars_inj {y1 m1 d1 y2 m2 d2 : Int}
    (hm1 : 0 ≤ m1 ∧ m1 < 100) (hm2 : 0 ≤ m2 ∧ m2 < 100)
    (hd1 : 0 ≤ d1 ∧ d1 < 100) (hd2 : 0 ≤ d2 ∧ d2 < 100)
    (h : dayKeyChars y1 m1 d1 = dayKeyChars y2 m2 d2) :
    y1 = y2 ∧ m1 = m2 ∧ d1 = d2 := by
  unfold dayKeyChars at h
  rw [List.append_assoc, List.append_assoc] at h
  have hlen : (('-' :: pad2 m1) ++ ('-' :: pad2 d1)).length
      = (('-' :: pad2 m2) ++ ('-' :: pad2 d2)).length := by
    simp [pad2_length m1 hm1.1 hm1.2, pad2_length m2 hm2.1 hm2.2,
      pad2_length d1 hd1.1 hd1.2, pad2_length d2 hd2.1 hd2.2]
  obtain ⟨hy, hs⟩ := List.append_inj' h hlen
  have hmd : pad2 m1 ++ ('-' :: pad2 d1) = pad2 m2 ++ ('-' :: pad2 d2) := by
    injection hs
  have hlen2 : ('-' :: pad2 d1).length = ('-' :: pad2 d2).length := by
    simp [pad2_length d1 hd1.1 hd1.2, pad2_length d2 hd2.1 hd2.2]
  obtain ⟨hm, hd⟩ := List.append_inj' hmd hlen2
  have hdp : pad2 d1 = pad2 d2 := by
    injection hd
  exact ⟨intChars_inj hy, pad2_inj hm1.1 hm1.2 hm2.1 hm2.2 hm,
    pad2_inj hd1.1 hd1.2 hd2.1 hd2.2 hdp⟩

/-- Granularity of the tabular report builder
(`financial-reports.ts`: `"day" | "month" | "all"`). -/
inductive TabGranularity where
  | day
  | month
  | all
  deriving DecidableEq

/-- Granularity of the chart builder
(`financial-movements-chart.ts`: `"day" | "week" | "month"`). -/
inductive ChartGranularity where
  | day
  | week
  | month
  deriving DecidableEq

/-- Granularity accepted from API query parameters
(`financial-granularity.ts`: `"day" | "month" | "all"`). -/
inductive QueryGranularity where
  | day
  | month
  | all
  deriving DecidableEq

/-- `normalizeFinancialGranularity` from `financial-granularity.ts`:
`value === "all" ? "month" : value`. -/
def normalizeFinancialGranularity : QueryGranularity → ChartGranularity
  | .all => .month
  | .day => .day
  | .month => .month

/-- `toPeriod` from `financial-reports.ts`. -/
def toPeriod (date : Int) (granularity : TabGranularity) : String :=
  match granularity with
  | .all => "all"
  | .month => ⟨monthKeyChars (getUTCFullYear date) (getUTCMonth date + 1)⟩
  | .day => ⟨dayKeyChars (getUTCFullYear date) (getUTCMonth date + 1) (getUTCDate date)⟩

/-- `bucketKeyUTC` from `financial-movements-chart.ts`.  The `week`
branch mirrors the source: truncate to UTC midnight via
`Date.UTC(y, m, d)`, read `getUTCDay`, subtract `(dayOfWeek + 6) % 7`
days with `setUTCDate`, and format the resulting Monday. -/
def bucketKeyUTC (date : Int) (granularity : ChartGranularity) : String :=
  let y := getUTCFullYear date
  let m := getUTCMonth date
  let d := getUTCDate date
  match granularity with
  | .month => ⟨monthKeyChars y (m + 1)⟩
  | .day => ⟨dayKeyChars y (m + 1) d⟩
  | .week =>
    let utcMidnight := daysFromCivil y (m + 1) d
    let dayOfWeek := (utcMidnight + 4) % 7
    let diffToMonday := (dayOfWeek + 6) % 7
    let monday := daysFromCivil y (m + 1) (d - diffToMonday)
    ⟨dayKeyChars (civilFromDays monday).1 (civilFromDays monday).2.1
      (civilFromDays monday).2.2⟩

/-- The Monday day number computed by the `week` branch: the day number
of the bucketed timestamp minus `(getUTCDay + 6) % 7`. -/
def mondayOf (ts : Int) : Int := dayNumber ts - ((dayNumber ts + 4) % 7 + 6) % 7

/-- The `week` branch of `bucketKeyUTC` formats exactly the civil date of
`mondayOf`. -/
theorem bucketKeyUTC_week_eq (ts : Int) :
    bucketKeyUTC ts .week
      = ⟨dayKeyChars (civilFromDays (mondayOf ts)).1 (civilFromDays (mondayOf ts)).2.1
          (civilFromDays (mondayOf ts)).2.2⟩ := by
  unfold bucketKeyUTC mondayOf
  dsimp only
  rw [makeDay_getters ts]
  rw [show getUTCDate ts - ((dayNumber ts + 4) % 7 + 6) % 7
      = getUTCDate ts + -(((dayNumber ts + 4) % 7 + 6) % 7) by ring]
  rw [daysFromCivil_add_day, makeDay_getters ts]
  rw [show dayNumber ts + -(((dayNumber ts + 4) % 7 + 6) % 7)
      = dayNumber ts - ((dayNumber ts + 4) % 7 + 6) % 7 by ring]

/-! ### ISO rendering of timestamps (`Date.prototype.toISOString`) -/

/-- `padStart(k, "0")` on a character list. -/
def padStartN (k : Nat) (s : List Char) : List Char :=
  List.replicate (k - s.length) '0' ++ s

/-- The year field of `toISOString`: four padded digits for years in
`[0, 9999]`, expanded six-digit form with explicit sign otherwise. -/
def isoYearChars (y : Int) : List Char :=
  if 0 ≤ y ∧ y ≤ 9999 then padStartN 4 (natChars y.toNat)
  else if y < 0 then '-' :: padStartN 6 (natChars (-y).toNat)
  else '+' :: padStartN 6 (natChars y.toNat)

/-- `Date.prototype.toISOString`: `YYYY-MM-DDTHH:mm:ss.sssZ` in UTC. -/
def toISOString (ts : Int) : String :=
  let c := civilFromDays (dayNumber ts)
  let tod := timeWithinDay ts
  ⟨isoYearChars c.1 ++ '-' :: pad2 c.2.1 ++ '-' :: pad2 c.2.2 ++
    'T' :: pad2 (tod / 3600000) ++ ':' :: pad2 (tod % 3600000 / 60000) ++
    ':' :: pad2 (tod % 60000 / 1000) ++
    '.' :: padStartN 3 (natChars (tod % 1000).toNat) ++ ['Z']⟩

/-! ### Transactions and the bucket map

Transaction rows carry the columns the report builders select:
`amount`, `date`, `type`.  The `type` column is modelled as a string
exactly as it reaches the JavaScript comparisons (`t.type === "INCOME"`);
the Prisma enum restricts it to `"INCOME" | "EXPENSE"` for well-formed
rows, but the code itself only ever tests equality with `"INCOME"`.
`txType` stands for the source's `type` field (`type` is a Lean keyword).

The builders group into a JavaScript `Map`, modelled as an
insertion-ordered association list: `get` scans for the key, `set`
replaces in place when the key exists and appends otherwise. -/

structure Tx where
  amount : Int
  date : Int
  txType : String
  deriving DecidableEq

/-- `Map.prototype.get`. -/
def mapGet {α : Type} : List (String × α) → String → Option α
  | [], _ => none
  | (k1, v) :: rest, k => if k1 = k then some v else mapGet rest k

/-- `Map.prototype.set`: update in place, appending new keys at the end
(JavaScript `Map` preserves insertion order). -/
def mapSet {α : Type} : List (String × α) → String → α → List (String × α)
  | [], k, v => [(k, v)]
  | (k1, v1) :: rest, k, v =>
    if k1 = k then (k1, v) :: rest else (k1, v1) :: mapSet rest k v

theorem mapGet_mem {α : Type} {m : List (String × α)} {k : String} {v : α}
    (h : mapGet m k = some v) : (k, v) ∈ m := by
  induction m with
  | nil => simp [mapGet] at h
  | cons e rest ih =>
    obtain ⟨k1, v1⟩ := e
    unfold mapGet at h
    split at h
    · next heq =>
      obtain rfl := heq
      simp at h
      subst h
      exact List.mem_cons_self _ _
    · exact List.mem_cons_of_mem _ (ih h)

theorem mapSet_keys_of_some {α : Type} {m : List (String × α)} {k : String} {w : α}
    (h : mapGet m k = some w) (v : α) :
    (mapSet m k v).map Prod.fst = m.map Prod.fst := by
  induction m with
  | nil => simp [mapGet] at h
  | cons e rest ih =>
    obtain ⟨k1, v1⟩ := e
    unfold mapGet at h
    unfold mapSet
    split at h <;> split <;> simp_all

theorem mapSet_keys_of_none {α : Type} {m : List (String × α)} {k : String}
    (h : mapGet m k = none) (v : α) :
    (mapSet m k v).map Prod.fst = m.map Prod.fst ++ [k] := by
  induction m with
  | nil => simp [mapSet]
  | cons e rest ih =>
    obtain ⟨k1, v1⟩ := e
    unfold mapGet at h
    unfold mapSet
    split at h <;> split <;> simp_all

theorem mapGet_none_iff {α : Type} {m : List (String × α)} {k : String} :
    mapGet m k = none ↔ k ∉ m.map Prod.fst := by
  induction m with
  | nil => simp [mapGet]
  | cons e rest ih =>
    obtain ⟨k1, v1⟩ := e
    unfold mapGet
    split
    · next heq =>
      subst heq
      simp
    · next hne =>
      simp only [List.map_cons, List.mem_cons, ih]
      constructor
      · intro hk
        intro hc
        rcases hc with hc | hc
        · exact hne hc.symm
        · exact hk hc
      · intro hk hc
        exact hk (Or.inr hc)

/-- Keys of the bucket map stay pairwise distinct under `set`. -/
theorem mapSet_nodup {α : Type} {m : List (String × α)} {k : String} {v : α}
    (h : (m.map Prod.fst).Nodup) : ((mapSet m k v).map Prod.fst).Nodup := by
  rcases hg : mapGet m k with _ | w
  · rw [mapSet_keys_of_none hg v]
    have hk : k ∉ m.map Prod.fst := mapGet_none_iff.mp hg
    simp [List.nodup_append, h, hk]
  · rw [mapSet_keys_of_some hg v]
    exact h

/-- Sum of a derived quantity over the values of the bucket map. -/
def sumVals {α : Type} (f : α → Int) (m : List (String × α)) : Int :=
  (m.map (fun e => f e.2)).sum

theorem sumVals_mapSet_none {α : Type} {m : List (String × α)} {k : String}
    (f : α → Int) (h : mapGet m k = none) (v : α) :
    sumVals f (mapSet m k v) = sumVals f m + f v := by
  induction m with
  | nil => simp [mapSet, sumVals]
  | cons e rest ih =>
    obtain ⟨k1, v1⟩ := e
    unfold mapGet at h
    unfold mapSet
    split at h
    · exact absurd h (by simp)
    · next hne =>
      rw [if_neg hne]
      simp only [sumVals, List.map_cons, List.sum_cons] at ih ⊢
      rw [ih h]
      ring

theorem sumVals_mapSet_some {α : Type} {m : List (String × α)} {k : String} {w : α}
    (f : α → Int) (h : mapGet m k = some w) (v : α) :
    sumVals f (mapSet m k v) = sumVals f m + f v - f w := by
  induction m with
  | nil => simp [mapGet] at h
  | cons e rest ih =>
    obtain ⟨k1, v1⟩ := e
    unfold mapGet at h
    unfold mapSet
    split at h
    · next heq =>
      simp only [Option.some.injEq] at h
      subst h
      rw [if_pos heq]
      simp only [sumVals, List.map_cons, List.sum_cons]
      ring
    · next hne =>
      rw [if_neg hne]
      simp only [sumVals, List.map_cons, List.sum_cons] at ih ⊢
      rw [ih h]
      ring

/-- A property of bucket values is preserved by `set`. -/
theorem mapSet_vals {α : Type} {m : List (String × α)} {k : String} {v : α}
    (P : α → Prop) (hm : ∀ e ∈ m, P e.2) (hv : P v) :
    ∀ e ∈ mapSet m k v, P e.2 := by
  induction m with
  | nil =>
    intro e he
    simp only [mapSet, List.mem_singleton] at he
    subst he
    exact hv
  | cons e1 rest ih =>
    obtain ⟨k1, v1⟩ := e1
    intro e he
    unfold mapSet at he
    split at he
    · rcases List.mem_cons.mp he with rfl | hmem
      · exact hv
      · exact hm _ (List.mem_cons_of_mem _ hmem)
    · rcases List.mem_cons.mp he with rfl | hmem
      · exact hm _ (List.mem_cons_self _ _)
      · exact ih (fun e2 he2 => hm _ (List.mem_cons_of_mem _ he2)) e hmem

/-! ### Tabular report builder (`buildFinancialMovementsReport`)

The Prisma query `transaction.findMany({ where: { date: {gte?, lte?} },
orderBy: { date: "asc" } })` is modelled by filtering the transaction
table with the range predicate below and stably sorting by date.
The builder is a function of the table, so "the fetch is never reached"
is expressed as: on the error path the result is the same error for
every table. -/

/-- The `where` filter of the tabular builder: `gte: from` and
`lte: to`, each only when the bound is supplied (inclusive upper
bound — `lte`, not `lt`). -/
def tabularRangePred (fromT toT : Option Int) (t : Tx) : Bool :=
  (match fromT with
    | some f => decide (f ≤ t.date)
    | none => true)
  && (match toT with
    | some u => decide (t.date ≤ u)
    | none => true)

/-- Accumulated income/expense of one bucket of the tabular builder. -/
structure TabBucket where
  income : Int
  expense : Int
  deriving DecidableEq

/-- One entry of the tabular report's `series`. -/
structure SeriesEntry where
  period : String
  income : Int
  expense : Int
  net : Int
  deriving DecidableEq

/-- The tabular report shape. -/
structure TabReport where
  balance : Int
  currency : String
  fromIso : Option String
  toIso : Option String
  granularity : TabGranularity
  series : List SeriesEntry
  deriving DecidableEq

/-- The loop body of `buildFinancialMovementsReport`: update the running
balance and the bucket of `toPeriod(t.date, granularity)`. -/
def tabStep (granularity : TabGranularity)
    (st : Int × List (String × TabBucket)) (t : Tx) :
    Int × List (String × TabBucket) :=
  let amt := t.amount
  let bal := if t.txType = "INCOME" then st.1 + amt else st.1 - amt
  let key := toPeriod t.date granularity
  let curr := (mapGet st.2 key).getD ⟨0, 0⟩
  let curr2 : TabBucket :=
    if t.txType = "INCOME" then ⟨curr.income + amt, curr.expense⟩
    else ⟨curr.income, curr.expense + amt⟩
  (bal, mapSet st.2 key curr2)

/-- `buildFinancialMovementsReport` from `financial-reports.ts`,
as a function of the transaction table behind the Prisma query. -/
def buildFinancialMovementsReport (fromT toT : Option Int)
    (granularity : TabGranularity) (table : List Tx) :
    Except String TabReport :=
  let bad := match fromT, toT with
    | some f, some u => decide (u < f)
    | _, _ => false
  if bad then
    .error "Invalid date range: 'from' date must be before or equal to 'to' date"
  else
    let txs := List.insertionSort (fun a b => a.date ≤ b.date)
      (table.filter (tabularRangePred fromT toT))
    let st := txs.foldl (tabStep granularity) (0, [])
    let series : List SeriesEntry := st.2.map
      (fun e => ⟨e.1, e.2.income, e.2.expense, e.2.income - e.2.expense⟩)
    .ok ⟨st.1, "COP", fromT.map toISOString, toT.map toISOString, granularity, series⟩

/-- The signed amount the loop folds into `balance`: `+amount` when
`t.type === "INCOME"`, `-amount` otherwise. -/
def codeSigned (t : Tx) : Int := if t.txType = "INCOME" then t.amount else -t.amount

/-- Signed sum of a transaction list. -/
def signedSum (txs : List Tx) : Int := (txs.map codeSigned).sum

/-- The fold's balance component accumulates the signed sum. -/
theorem tabFold_balance (granularity : TabGranularity) (txs : List Tx) :
    ∀ st : Int × List (String × TabBucket),
      (txs.foldl (tabStep granularity) st).1 = st.1 + signedSum txs := by
  induction txs with
  | nil => intro st; simp [signedSum]
  | cons t rest ih =>
    intro st
    rw [List.foldl_cons, ih]
    show (tabStep granularity st t).1 + signedSum rest = st.1 + signedSum (t :: rest)
    simp only [signedSum, List.map_cons, List.sum_cons]
    unfold tabStep codeSigned
    dsimp only
    split_ifs <;> ring

/-- Net value of a tabular bucket. -/
def bucketNet (b : TabBucket) : Int := b.income - b.expense

/-- The fold preserves "balance minus total bucket net": bucketing never
loses or double-counts a transaction. -/
theorem tabFold_netSum (granularity : TabGranularity) (txs : List Tx) :
    ∀ st : Int × List (String × TabBucket),
      sumVals bucketNet (txs.foldl (tabStep granularity) st).2
          - (txs.foldl (tabStep granularity) st).1
        = sumVals bucketNet st.2 - st.1 := by
  induction txs with
  | nil => intro st; rfl
  | cons t rest ih =>
    intro st
    rw [List.foldl_cons, ih]
    show sumVals bucketNet (tabStep granularity st t).2 - (tabStep granularity st t).1
        = sumVals bucketNet st.2 - st.1
    unfold tabStep
    dsimp only
    rcases hg : mapGet st.2 (toPeriod t.date granularity) with _ | w
    · rw [sumVals_mapSet_none bucketNet hg]
      simp only [hg, Option.getD_none]
      split <;> (unfold bucketNet; dsimp only; ring)
    · rw [sumVals_mapSet_some bucketNet hg]
      simp only [hg, Option.getD_some]
      split <;> (unfold bucketNet; dsimp only; ring)

/-- Bucket keys accumulated by the fold stay pairwise distinct. -/
theorem tabFold_nodup (granularity : TabGranularity) (txs : List Tx) :
    ∀ st : Int × List (String × TabBucket),
      (st.2.map Prod.fst).Nodup →
      ((txs.foldl (tabStep granularity) st).2.map Prod.fst).Nodup := by
  induction txs with
  | nil => intro st h; exact h
  | cons t rest ih =>
    intro st h
    rw [List.foldl_cons]
    exact ih _ (mapSet_nodup h)

/-! ### Date-range normalizer (`date-range.ts`)

Models the current revision of the module (`validateDateRange` plus the
one-day-advancing `buildUtcRangeExclusive`, lines 32-68 of the source).
The `isNaN` guard has no counterpart here: timestamps are modelled as
integers, so every modelled date is valid. -/

/-- `validateDateRange` from `date-range.ts`: reject `from > to`. -/
def validateDateRange (fromTs toTs : Int) : Except String Unit :=
  if toTs < fromTs then
    .error "Invalid date range: 'from' date must be before or equal to 'to' date"
  else .ok ()

/-- `d.setUTCDate(d.getUTCDate() + k)`: replace the day-of-month by its
current value plus `k`, letting `MakeDay` normalize overflow, keeping
the time of day. -/
def setUTCDateAdd (ts : Int) (k : Int) : Int :=
  let c := civilFromDays (dayNumber ts)
  daysFromCivil c.1 c.2.1 (c.2.2 + k) * 86400000 + timeWithinDay ts

/-- `setUTCDate(getUTCDate() + k)` always shifts the timestamp by exactly
`k` days (UTC has no DST jumps). -/
theorem setUTCDateAdd_eq (ts k : Int) : setUTCDateAdd ts k = ts + k * 86400000 := by
  unfold setUTCDateAdd
  dsimp only
  rw [daysFromCivil_add_day, daysFromCivil_civilFromDays]
  unfold dayNumber timeWithinDay
  omega

/-- `buildUtcRangeExclusive` from `date-range.ts` (current revision,
lines 51-68): validate `from ≤ to`, then advance `to` by one calendar
day so the exclusive filter `[from, to+1day)` covers the whole final
day. -/
def buildUtcRangeExclusive (fromTs toTs : Int) : Except String (Int × Int) :=
  match validateDateRange fromTs toTs with
  | .error e => .error e
  | .ok _ => .ok (fromTs, setUTCDateAdd toTs 1)

/-! ### Chart builder (`financial-movements-chart.ts`) -/

/-- The chart fetch filter: `date: { gte: from, lt: toExclusive }`. -/
def chartRangePred (fromTs toEx : Int) (t : Tx) : Bool :=
  decide (fromTs ≤ t.date) && decide (t.date < toEx)

/-- `fetchFinancialTransactions`: normalize the range, then query rows in
`[from, toExclusive)` ordered by date ascending. -/
def fetchFinancialTransactions (fromTs toTs : Int) (table : List Tx) :
    Except String (List Tx) :=
  match buildUtcRangeExclusive fromTs toTs with
  | .error e => .error e
  | .ok r =>
    .ok (List.insertionSort (fun a b => a.date ≤ b.date)
      (table.filter (chartRangePred r.1 r.2)))

/-- JavaScript string comparison `a < b`: lexicographic on the code
units, modelled on the character lists.  (Defined as an executable
boolean so the comparator computes; it agrees with the lexicographic
order on strings, see `charsLtb_iff`.) -/
def charsLtb : List Char → List Char → Bool
  | _, [] => false
  | [], _ :: _ => true
  | a :: as1, b :: bs1 =>
    if a.toNat < b.toNat then true
    else if b.toNat < a.toNat then false
    else charsLtb as1 bs1

theorem charsLtb_iff : ∀ x y : List Char, charsLtb x y = true ↔ List.Lex (· < ·) x y := by
  intro x
  induction x with
  | nil =>
    intro y
    cases y with
    | nil => simp [charsLtb]
    | cons b bs =>
      simp [charsLtb]
      exact List.Lex.nil
  | cons a as1 ih =>
    intro y
    cases y with
    | nil => simp [charsLtb]
    | cons b bs =>
      unfold charsLtb
      split_ifs with h1 h2
      · exact iff_of_true rfl (List.Lex.rel h1)
      · refine iff_of_false (by simp) ?_
        intro hlex
        cases hlex with
        | cons h => omega
        | rel h =>
          have h3 : a.toNat < b.toNat := h
          omega
      · have hn : a.toNat = b.toNat := by omega
        have hab : a = b := Char.eq_of_val_eq (UInt32.toNat.inj hn)
        subst hab
        rw [ih bs]
        constructor
        · exact List.Lex.cons
        · intro hlex
          cases hlex with
          | cons h => exact h
          | rel h =>
            have h3 : a.toNat < a.toNat := h
            omega

theorem string_lt_iff (a b : String) : a < b ↔ List.Lex (· < ·) a.data b.data := by
  rw [String.lt_iff_toList_lt]
  exact Iff.rfl

/-- `compareBucket` from `financial-movements-chart.ts`:
`a < b ? -1 : a > b ? 1 : 0`, with `<` the JavaScript string
comparison. -/
def compareBucket (a b : String) : Int :=
  if charsLtb a.data b.data then -1 else if charsLtb b.data a.data then 1 else 0

theorem compareBucket_le_iff (a b : String) : compareBucket a b ≤ 0 ↔ a ≤ b := by
  unfold compareBucket
  have hle : (a ≤ b) = ¬(b < a) := rfl
  rcases hab : charsLtb a.data b.data with _ | _
  · rcases hba : charsLtb b.data a.data with _ | _
    · simp only [Bool.false_eq_true, if_false]
      rw [hle]
      simp only [le_refl, true_iff]
      rw [string_lt_iff, ← charsLtb_iff, hba]
      simp
    · simp only [Bool.false_eq_true, if_false, if_pos rfl]
      rw [hle]
      rw [string_lt_iff, ← charsLtb_iff, hba]
      simp
  · rw [if_pos rfl, hle]
    have hlt : a < b := (string_lt_iff a b).mpr ((charsLtb_iff _ _).mp hab)
    simp only [neg_le, neg_zero, Int.reduceNeg]
    constructor
    · intro _
      exact lt_asymm hlt
    · intro _
      omega

instance : IsTotal String (fun a b => compareBucket a b ≤ 0) :=
  ⟨fun a b => by
    rcases le_total a b with h | h
    · exact Or.inl ((compareBucket_le_iff a b).mpr h)
    · exact Or.inr ((compareBucket_le_iff b a).mpr h)⟩

instance : IsTrans String (fun a b => compareBucket a b ≤ 0) :=
  ⟨fun a b c hab hbc => (compareBucket_le_iff a c).mpr
    (le_trans ((compareBucket_le_iff a b).mp hab) ((compareBucket_le_iff b c).mp hbc))⟩

/-- One bucket of the chart builder; `net` is stored and refreshed as
`income - expense` on every update. -/
structure ChartBucket where
  income : Int
  expense : Int
  net : Int
  deriving DecidableEq

/-- One entry of the chart report's `points` array. -/
structure ChartPoint where
  label : String
  income : Int
  expense : Int
  net : Int
  deriving DecidableEq

/-- One entry of the chart report's `datasets` array. -/
structure ChartDataset where
  key : String
  label : String
  data : List Int
  deriving DecidableEq

/-- The `FinancialMovementsChartResponse` shape.  `meta.from`/`meta.to`
echo the request bounds (modelled as the parsed instants). -/
structure ChartReport where
  metaFrom : Int
  metaTo : Int
  metaGranularity : ChartGranularity
  labels : List String
  seriesIncome : List Int
  seriesExpense : List Int
  seriesNet : List Int
  points : List ChartPoint
  totalsIncome : Int
  totalsExpense : Int
  totalsNet : Int
  datasets : List ChartDataset
  deriving DecidableEq

/-- The aggregation loop body of `buildFinancialMovementsChart`.
`Number(tx.amount) || 0` is the identity on modelled (integral)
amounts. -/
def chartStep (granularity : ChartGranularity)
    (buckets : List (String × ChartBucket)) (t : Tx) :
    List (String × ChartBucket) :=
  let key := bucketKeyUTC t.date granularity
  let current := (mapGet buckets key).getD ⟨0, 0, 0⟩
  let amount := t.amount
  let c1 : ChartBucket :=
    if t.txType = "INCOME" then ⟨current.income + amount, current.expense, current.net⟩
    else ⟨current.income, current.expense + amount, current.net⟩
  mapSet buckets key ⟨c1.income, c1.expense, c1.income - c1.expense⟩

/-- Zip of `labels.map((label, i) => ({label, income: income[i], ...}))`
over parallel arrays. -/
def mkPoints : List String → List Int → List Int → List Int → List ChartPoint
  | l :: ls, a :: ra, b :: rb, c :: rc => ⟨l, a, b, c⟩ :: mkPoints ls ra rb rc
  | _, _, _, _ => []

/-- `buildFinancialMovementsChart` from `financial-movements-chart.ts`,
as a function of the transaction table behind the Prisma query. -/
def buildFinancialMovementsChart (fromTs toTs : Int)
    (granularity : ChartGranularity) (table : List Tx) :
    Except String ChartReport :=
  if toTs < fromTs then
    .error "Invalid date range: 'from' date must be before or equal to 'to' date"
  else
    match fetchFinancialTransactions fromTs toTs table with
    | .error e => .error e
    | .ok rows =>
      let buckets := rows.foldl (chartStep granularity) []
      let labels := List.insertionSort (fun a b => compareBucket a b ≤ 0)
        (buckets.map Prod.fst)
      let income := labels.map (fun k => ((mapGet buckets k).getD ⟨0, 0, 0⟩).income)
      let expense := labels.map (fun k => ((mapGet buckets k).getD ⟨0, 0, 0⟩).expense)
      let net := labels.map (fun k => ((mapGet buckets k).getD ⟨0, 0, 0⟩).net)
      .ok
        { metaFrom := fromTs
          metaTo := toTs
          metaGranularity := granularity
          labels := labels
          seriesIncome := income
          seriesExpense := expense
          seriesNet := net
          points := mkPoints labels income expense net
          totalsIncome := income.foldl (· + ·) 0
          totalsExpense := expense.foldl (· + ·) 0
          totalsNet := net.foldl (· + ·) 0
          datasets :=
            [⟨"income", "Income", income⟩, ⟨"expense", "Expenses", expense⟩,
              ⟨"net", "Net", net⟩] }

/-- Chart bucket keys stay pairwise distinct through the fold. -/
theorem chartFold_nodup (granularity : ChartGranularity) (txs : List Tx) :
    ∀ m : List (String × ChartBucket),
      (m.map Prod.fst).Nodup →
      ((txs.foldl (chartStep granularity) m).map Prod.fst).Nodup := by
  induction txs with
  | nil => intro m h; exact h
  | cons t rest ih =>
    intro m h
    rw [List.foldl_cons]
    exact ih _ (mapSet_nodup h)

/-- Every bucket the chart fold produces satisfies
`net = income - expense`. -/
theorem chartFold_net (granularity : ChartGranularity) (txs : List Tx) :
    ∀ m : List (String × ChartBucket),
      (∀ e ∈ m, e.2.net = e.2.income - e.2.expense) →
      ∀ e ∈ txs.foldl (chartStep granularity) m, e.2.net = e.2.income - e.2.expense := by
  induction txs with
  | nil => intro m h; exact h
  | cons t rest ih =>
    intro m h
    rw [List.foldl_cons]
    refine ih _ ?_
    unfold chartStep
    dsimp only
    exact mapSet_vals (fun b : ChartBucket => b.net = b.income - b.expense) h rfl

/-- `mkPoints` over three maps of the same key list is a map. -/
theorem mkPoints_maps (f g h : String → Int) (ls : List String) :
    mkPoints ls (ls.map f) (ls.map g) (ls.map h)
      = ls.map (fun k => ⟨k, f k, g k, h k⟩) := by
  induction ls with
  | nil => rfl
  | cons l rest ih =>
    simp only [List.map_cons, mkPoints, ih]

/-- Folding `(a, b) => a + b` from `0` is the list sum. -/
theorem foldl_add_sum (l : List Int) : l.foldl (· + ·) 0 = l.sum := by
  have h : ∀ (l : List Int) (a : Int), l.foldl (· + ·) a = a + l.sum := by
    intro l
    induction l with
    | nil => intro a; simp
    | cons x rest ih =>
      intro a
      rw [List.foldl_cons, ih, List.sum_cons]
      ring
  rw [h l 0]
  ring

theorem sum_map_sub (f g : String → Int) (ls : List String) :
    (ls.map (fun k => f k - g k)).sum = (ls.map f).sum - (ls.map g).sum := by
  induction ls with
  | nil => simp
  | cons l rest ih =>
    simp only [List.map_cons, List.sum_cons, ih]
    ring

/-! ### CSV encoder (`financial-report-csv.ts`) -/

/-- `esc` from `financial-report-csv.ts`: wrap a field in double quotes
when it contains a comma, double quote, newline or carriage return;
double every embedded quote. -/
def esc (s : List Char) : List Char :=
  let needsQuotes := s.any (fun c => c == '"' || c == ',' || c == '\n' || c == '\r')
  let quoted := s.flatMap (fun c => if c = '"' then ['"', '"'] else [c])
  if needsQuotes then '"' :: quoted ++ ['"'] else quoted

/-- Escaping introduces no newline that was not in the field. -/
theorem esc_no_newline {s : List Char} (h : '\n' ∉ s) : '\n' ∉ esc s := by
  unfold esc
  dsimp only
  have hq : '\n' ∉ s.flatMap (fun c => if c = '"' then ['"', '"'] else [c]) := by
    intro hc
    rcases List.mem_flatMap.mp hc with ⟨c, hcs, hin⟩
    split at hin <;> simp at hin <;> subst hin
    · exact h hcs
  split
  · intro hc
    rcases List.mem_cons.mp hc with hc | hc
    · exact absurd hc.symm (by decide)
    · rcases List.mem_append.mp hc with hc | hc
      · exact hq hc
      · simp at hc
  · exact hq

/-- The rendered granularity string of the tabular report. -/
def granStr : TabGranularity → String
  | .day => "day"
  | .month => "month"
  | .all => "all"

/-- `Array.prototype.join(sep)` on a single-character separator. -/
def joinSep (sep : Char) : List (List Char) → List Char
  | [] => []
  | [l] => l
  | l :: l2 :: ls => l ++ sep :: joinSep sep (l2 :: ls)

/-- `String.prototype.split(sep)` on a single-character separator. -/
def splitSep (sep : Char) : List Char → List (List Char)
  | [] => [[]]
  | c :: cs =>
    if c = sep then [] :: splitSep sep cs
    else
      match splitSep sep cs with
      | [] => [[c]]
      | l :: ls => (c :: l) :: ls

/-- The lines array `[...metaLines, "", header, ...rows]` the CSV
encoder joins. -/
def csvLines (r : TabReport) : List (List Char) :=
  let metaPairs : List (List Char × List Char) :=
    [("currency".data, r.currency.data),
     ("granularity".data, (granStr r.granularity).data),
     ("from".data, (r.fromIso.getD "").data),
     ("to".data, (r.toIso.getD "").data),
     ("balance".data, intChars r.balance)]
  let metaLines := metaPairs.map (fun p => esc p.1 ++ ',' :: esc p.2)
  let header := "period,income,expense,net".data
  let rows := r.series.map (fun e =>
    esc e.period.data ++ ',' :: esc (intChars e.income) ++
      ',' :: esc (intChars e.expense) ++ ',' :: esc (intChars e.net))
  metaLines ++ [[], header] ++ rows

/-- `financialMovementsReportToCsv` from `financial-report-csv.ts`. -/
def financialMovementsReportToCsv (r : TabReport) : String :=
  ⟨joinSep '\n' (csvLines r)⟩

theorem splitSep_ne_nil (sep : Char) (cs : List Char) : splitSep sep cs ≠ [] := by
  induction cs with
  | nil => simp [splitSep]
  | cons c rest ih =>
    unfold splitSep
    split
    · simp
    · rcases h : splitSep sep rest with _ | ⟨l, ls⟩
      · simp
      · simp

/-- Splitting a separator-free prefix prepends it to the first piece. -/
theorem splitSep_append (sep : Char) (l cs : List Char) (hl : sep ∉ l) :
    ∀ h t, splitSep sep cs = h :: t → splitSep sep (l ++ cs) = (l ++ h) :: t := by
  induction l with
  | nil => intro h t hs; simpa using hs
  | cons c rest ih =>
    intro h t hs
    have hc : ¬c = sep := fun hceq => hl (hceq ▸ List.mem_cons_self _ _)
    have hrest : sep ∉ rest := fun hm => hl (List.mem_cons_of_mem _ hm)
    show splitSep sep (c :: (rest ++ cs)) = _
    unfold splitSep
    rw [if_neg hc, ih hrest h t hs]
    rfl

/-- Splitting a join recovers the lines, provided no line contains the
separator. -/
theorem splitSep_joinSep (sep : Char) (l : List Char) (ls : List (List Char))
    (h : ∀ x ∈ l :: ls, sep ∉ x) :
    splitSep sep (joinSep sep (l :: ls)) = l :: ls := by
  induction ls generalizing l with
  | nil =>
    show splitSep sep (joinSep sep [l]) = [l]
    have : joinSep sep [l] = l ++ [] := by simp [joinSep]
    rw [this,
      splitSep_append sep l [] (h l (List.mem_cons_self _ _)) [] [] rfl]
    simp
  | cons l2 ls2 ih =>
    show splitSep sep (l ++ sep :: joinSep sep (l2 :: ls2)) = l :: l2 :: ls2
    have h2 : splitSep sep (joinSep sep (l2 :: ls2)) = l2 :: ls2 :=
      ih l2 (fun x hx => h x (List.mem_cons_of_mem _ hx))
    have h3 : splitSep sep (sep :: joinSep sep (l2 :: ls2))
        = [] :: l2 :: ls2 := by
      unfold splitSep
      rw [if_pos rfl, h2]
    have h4 := splitSep_append sep l (sep :: joinSep sep (l2 :: ls2))
      (h l (List.mem_cons_self _ _)) [] (l2 :: ls2) h3
    simpa using h4

/-! ### Derived facts used by the claim theorems -/

theorem mapSet_ne_nil {α : Type} (m : List (String × α)) (k : String) (v : α) :
    mapSet m k v ≠ [] := by
  cases m with
  | nil => simp [mapSet]
  | cons e rest =>
    obtain ⟨k1, v1⟩ := e
    unfold mapSet
    split <;> simp

/-- Once the bucket map is nonempty it stays nonempty. -/
theorem tabFold_ne_nil (granularity : TabGranularity) (txs : List Tx) :
    ∀ st : Int × List (String × TabBucket), st.2 ≠ [] →
      (txs.foldl (tabStep granularity) st).2 ≠ [] := by
  induction txs with
  | nil => intro st h; exact h
  | cons t rest ih =>
    intro st h
    rw [List.foldl_cons]
    exact ih _ (mapSet_ne_nil _ _ _)

/-- With granularity `all` every key the tabular fold ever inserts is the
literal `"all"`. -/
theorem tabFold_all_keys (txs : List Tx) :
    ∀ st : Int × List (String × TabBucket),
      (∀ k ∈ st.2.map Prod.fst, k = "all") →
      ∀ k ∈ (txs.foldl (tabStep .all) st).2.map Prod.fst, k = "all" := by
  induction txs with
  | nil => intro st h; exact h
  | cons t rest ih =>
    intro st h
    rw [List.foldl_cons]
    refine ih _ ?_
    show ∀ k ∈ (mapSet st.2 (toPeriod t.date .all) _).map Prod.fst, k = "all"
    have hkey : toPeriod t.date .all = "all" := rfl
    rw [hkey]
    rcases hg : mapGet st.2 "all" with _ | w
    · rw [mapSet_keys_of_none hg]
      intro k hk
      rcases List.mem_append.mp hk with hk | hk
      · exact h k hk
      · simpa using hk
    · rw [mapSet_keys_of_some hg]
      exact h

theorem nodup_const_singleton {l : List String} (a : String)
    (hn : l.Nodup) (hall : ∀ x ∈ l, x = a) (hne : l ≠ []) : l.length = 1 := by
  cases l with
  | nil => exact absurd rfl hne
  | cons x rest =>
    cases rest with
    | nil => rfl
    | cons y rest2 =>
      exfalso
      have hx : x = a := hall x (List.mem_cons_self _ _)
      have hy : y = a := hall y (List.mem_cons_of_mem _ (List.mem_cons_self _ _))
      have : x ∉ y :: rest2 := (List.nodup_cons.mp hn).1
      exact this (by rw [hx, hy]; exact List.mem_cons_self _ _)

/-- The amount a transaction contributes to the `expense` side:
everything that is not `INCOME` counts as expense. -/
def expensePart (t : Tx) : Int := if t.txType = "INCOME" then 0 else t.amount

/-- The tabular fold accumulates `expensePart` into the buckets'
`expense` fields. -/
theorem tabFold_expense (granularity : TabGranularity) (txs : List Tx) :
    ∀ st : Int × List (String × TabBucket),
      sumVals TabBucket.expense (txs.foldl (tabStep granularity) st).2
        = sumVals TabBucket.expense st.2 + (txs.map expensePart).sum := by
  induction txs with
  | nil => intro st; simp
  | cons t rest ih =>
    intro st
    rw [List.foldl_cons, ih]
    simp only [List.map_cons, List.sum_cons]
    have hstep : sumVals TabBucket.expense (tabStep granularity st t).2
        = sumVals TabBucket.expense st.2 + expensePart t := by
      unfold tabStep expensePart
      dsimp only
      rcases hg : mapGet st.2 (toPeriod t.date granularity) with _ | w
      · rw [sumVals_mapSet_none TabBucket.expense hg]
        simp only [hg, Option.getD_none]
        split <;> dsimp only <;> ring
      · rw [sumVals_mapSet_some TabBucket.expense hg]
        simp only [hg, Option.getD_some]
        split <;> dsimp only <;> ring
    rw [hstep]
    ring

/-- The chart fold accumulates `expensePart` into the buckets' `expense`
fields. -/
theorem chartFold_expense (granularity : ChartGranularity) (txs : List Tx) :
    ∀ m : List (String × ChartBucket),
      sumVals ChartBucket.expense (txs.foldl (chartStep granularity) m)
        = sumVals ChartBucket.expense m + (txs.map expensePart).sum := by
  induction txs with
  | nil => intro m; simp
  | cons t rest ih =>
    intro m
    rw [List.foldl_cons, ih]
    simp only [List.map_cons, List.sum_cons]
    have hstep : sumVals ChartBucket.expense (chartStep granularity m t)
        = sumVals ChartBucket.expense m + expensePart t := by
      unfold chartStep expensePart
      dsimp only
      rcases hg : mapGet m (bucketKeyUTC t.date granularity) with _ | w
      · rw [sumVals_mapSet_none ChartBucket.expense hg]
        simp only [hg, Option.getD_none]
        split <;> dsimp only <;> ring
      · rw [sumVals_mapSet_some ChartBucket.expense hg]
        simp only [hg, Option.getD_some]
        split <;> dsimp only <;> ring
    rw [hstep]
    ring

theorem mapGet_cons_ne {α : Type} (k1 k : String) (v1 : α)
    (rest : List (String × α)) (h : ¬k1 = k) :
    mapGet ((k1, v1) :: rest) k = mapGet rest k := by
  show (if k1 = k then some v1 else mapGet rest k) = mapGet rest k
  rw [if_neg h]

/-- Summing a value read back through `mapGet` over the (distinct) key
list of the map is summing over the map's entries. -/
theorem sum_over_keys {α : Type} (f : α → Int) (d : α) :
    ∀ m : List (String × α), (m.map Prod.fst).Nodup →
      ((m.map Prod.fst).map (fun k => f ((mapGet m k).getD d))).sum = sumVals f m := by
  intro m
  induction m with
  | nil => intro h; rfl
  | cons e rest ih =>
    obtain ⟨k1, v1⟩ := e
    intro h
    have hk1 : k1 ∉ rest.map Prod.fst := (List.nodup_cons.mp h).1
    have hrest := (List.nodup_cons.mp h).2
    simp only [List.map_cons, List.sum_cons]
    have hhead : mapGet ((k1, v1) :: rest) k1 = some v1 := by
      unfold mapGet
      rw [if_pos rfl]
    rw [hhead]
    have hcong : ∀ k ∈ rest.map Prod.fst,
        f ((mapGet ((k1, v1) :: rest) k).getD d) = f ((mapGet rest k).getD d) := by
      intro k hk
      have hne : ¬k1 = k := fun he => hk1 (he ▸ hk)
      rw [mapGet_cons_ne k1 k v1 rest hne]
    rw [List.map_congr_left hcong, ih hrest]
    rfl

/-- `fetchFinancialTransactions` succeeds on a valid range with the
filtered, date-sorted rows of the `[from, to+1day)` window. -/
theorem fetch_ok (fromTs toTs : Int) (table : List Tx) (h : fromTs ≤ toTs) :
    fetchFinancialTransactions fromTs toTs table
      = .ok (List.insertionSort (fun a b => a.date ≤ b.date)
          (table.filter (chartRangePred fromTs (setUTCDateAdd toTs 1)))) := by
  unfold fetchFinancialTransactions buildUtcRangeExclusive validateDateRange
  rw [if_neg (by omega)]

/-- Inversion for a successful chart build: the response components are
exactly the assembled aggregation artifacts. -/
theorem chart_ok_inv (fromTs toTs : Int) (g : ChartGranularity) (table : List Tx)
    (c : ChartReport)
    (hok : buildFinancialMovementsChart fromTs toTs g table = .ok c) :
    fromTs ≤ toTs ∧
    ∃ buckets : List (String × ChartBucket),
      buckets = (List.insertionSort (fun a b => a.date ≤ b.date)
          (table.filter (chartRangePred fromTs (setUTCDateAdd toTs 1)))).foldl
            (chartStep g) [] ∧
      c.labels = List.insertionSort (fun a b => compareBucket a b ≤ 0)
        (buckets.map Prod.fst) ∧
      c.seriesIncome = c.labels.map (fun k => ((mapGet buckets k).getD ⟨0, 0, 0⟩).income) ∧
      c.seriesExpense = c.labels.map (fun k => ((mapGet buckets k).getD ⟨0, 0, 0⟩).expense) ∧
      c.seriesNet = c.labels.map (fun k => ((mapGet buckets k).getD ⟨0, 0, 0⟩).net) ∧
      c.points = mkPoints c.labels c.seriesIncome c.seriesExpense c.seriesNet ∧
      c.totalsIncome = c.seriesIncome.foldl (· + ·) 0 ∧
      c.totalsExpense = c.seriesExpense.foldl (· + ·) 0 ∧
      c.totalsNet = c.seriesNet.foldl (· + ·) 0 := by
  unfold buildFinancialMovementsChart at hok
  split at hok
  · exact absurd hok (by simp)
  · next hcond =>
    have hle : fromTs ≤ toTs := by omega
    rw [fetch_ok fromTs toTs table hle] at hok
    simp only [Except.ok.injEq] at hok
    subst hok
    exact ⟨hle, _, rfl, rfl, rfl, rfl, rfl, rfl, rfl, rfl, rfl⟩

/-- Inversion for a successful tabular build: the report fields are the
assembled fold artifacts. -/
theorem tab_ok_inv (fromT toT : Option Int) (g : TabGranularity) (table : List Tx)
    (r : TabReport)
    (hok : buildFinancialMovementsReport fromT toT g table = .ok r) :
    ∃ st : Int × List (String × TabBucket),
      st = (List.insertionSort (fun a b => a.date ≤ b.date)
          (table.filter (tabularRangePred fromT toT))).foldl (tabStep g) (0, []) ∧
      r.balance = st.1 ∧
      r.series = st.2.map
        (fun e => ⟨e.1, e.2.income, e.2.expense, e.2.income - e.2.expense⟩) ∧
      r.granularity = g := by
  unfold buildFinancialMovementsReport at hok
  dsimp only at hok
  split at hok
  · exact absurd hok (by simp)
  · simp only [Except.ok.injEq] at hok
    subst hok
    exact ⟨_, rfl, rfl, rfl, rfl⟩

theorem intChars_no_newline (z : Int) : '\n' ∉ intChars z := by
  intro h
  have hc := intChars_chars z '\n' h
  have h10 : ('\n' : Char).toNat = 10 := rfl
  omega

theorem catLine_no_newline {a b : List Char} (ha : '\n' ∉ a) (hb : '\n' ∉ b) :
    '\n' ∉ a ++ ',' :: b := by
  intro h
  rcases List.mem_append.mp h with h | h
  · exact ha h
  · rcases List.mem_cons.mp h with h | h
    · exact absurd h (by decide)
    · exact hb h

theorem granStr_no_newline (g : TabGranularity) : '\n' ∉ (granStr g).data := by
  cases g <;> decide

/-- No line of the encoded CSV contains a newline, provided the string
fields of the report do not. -/
theorem csvLines_no_newline (r : TabReport)
    (hcur : '\n' ∉ r.currency.data)
    (hfrom : '\n' ∉ (r.fromIso.getD "").data)
    (hto : '\n' ∉ (r.toIso.getD "").data)
    (hser : ∀ e ∈ r.series, '\n' ∉ e.period.data) :
    ∀ x ∈ csvLines r, '\n' ∉ x := by
  intro x hx
  unfold csvLines at hx
  dsimp only at hx
  rcases List.mem_append.mp hx with hx | hx
  · rcases List.mem_append.mp hx with hx | hx
    · simp only [List.map_cons, List.map_nil, List.mem_cons, List.mem_singleton,
        List.not_mem_nil, or_false] at hx
      rcases hx with rfl | rfl | rfl | rfl | rfl
      · exact catLine_no_newline (by decide) (esc_no_newline hcur)
      · exact catLine_no_newline (by decide) (esc_no_newline (granStr_no_newline _))
      · exact catLine_no_newline (by decide) (esc_no_newline hfrom)
      · exact catLine_no_newline (by decide) (esc_no_newline hto)
      · exact catLine_no_newline (by decide) (esc_no_newline (intChars_no_newline _))
    · simp only [List.mem_cons, List.mem_singleton, List.not_mem_nil, or_false] at hx
      rcases hx with rfl | rfl
      · simp
      · decide
  · rcases List.mem_map.mp hx with ⟨e, he, rfl⟩
    intro hn
    rcases List.mem_append.mp hn with h | h
    · rcases List.mem_append.mp h with h | h
      · rcases List.mem_append.mp h with h | h
        · exact esc_no_newline (hser e he) h
        · rcases List.mem_cons.mp h with h | h
          · exact absurd h (by decide)
          · exact esc_no_newline (intChars_no_newline _) h
      · rcases List.mem_cons.mp h with h | h
        · exact absurd h (by decide)
        · exact esc_no_newline (intChars_no_newline _) h
    · rcases List.mem_cons.mp h with h | h
      · exact absurd h (by decide)
      · exact esc_no_newline (intChars_no_newline _) h

theorem csvLines_length (r : TabReport) : (csvLines r).length = 7 + r.series.length := by
  unfold csvLines
  simp [List.length_append, List.length_map]
  omega

/-! ### Claim theorems -/

/-- C1: for every transaction list returned by the (enum-typed)
transaction source and every granularity, the report balance equals the
sum of `+amount` for INCOME and `-amount` for EXPENSE over those
transactions, and also equals the sum of `net` over the returned series
(no transaction is lost or double-counted by bucketing). -/
theorem tabular_balance_invariant (fromT toT : Option Int) (g : TabGranularity)
    (table : List Tx) (r : TabReport)
    (hok : buildFinancialMovementsReport fromT toT g table = .ok r)
    (htypes : ∀ t ∈ table.filter (tabularRangePred fromT toT),
      t.txType = "INCOME" ∨ t.txType = "EXPENSE") :
    r.balance
        = ((table.filter (tabularRangePred fromT toT)).map
            (fun t => if t.txType = "INCOME" then t.amount
              else if t.txType = "EXPENSE" then -t.amount else 0)).sum
      ∧ r.balance = (r.series.map SeriesEntry.net).sum := by
  obtain ⟨st, hst, hbal, hser, -⟩ := tab_ok_inv fromT toT g table r hok
  have hperm : List.Perm
      (List.insertionSort (fun a b => a.date ≤ b.date)
        (table.filter (tabularRangePred fromT toT)))
      (table.filter (tabularRangePred fromT toT)) :=
    List.perm_insertionSort _ _
  constructor
  · rw [hbal, hst, tabFold_balance]
    have h1 : signedSum (List.insertionSort (fun a b => a.date ≤ b.date)
          (table.filter (tabularRangePred fromT toT)))
        = signedSum (table.filter (tabularRangePred fromT toT)) :=
      (hperm.map codeSigned).sum_eq
    rw [h1]
    have h2 : signedSum (table.filter (tabularRangePred fromT toT))
        = ((table.filter (tabularRangePred fromT toT)).map
            (fun t => if t.txType = "INCOME" then t.amount
              else if t.txType = "EXPENSE" then -t.amount else 0)).sum := by
      unfold signedSum
      refine congrArg List.sum (List.map_congr_left ?_)
      intro t ht
      rcases htypes t ht with h | h
      · simp [codeSigned, h]
      · simp [codeSigned, h]
    rw [h2]
    simp
  · rw [hbal, hser, hst, List.map_map]
    have hcomp : (SeriesEntry.net ∘ fun e : String × TabBucket =>
        (⟨e.1, e.2.income, e.2.expense, e.2.income - e.2.expense⟩ : SeriesEntry))
        = fun e => bucketNet e.2 := rfl
    rw [hcomp]
    have hnet := tabFold_netSum g (List.insertionSort (fun a b => a.date ≤ b.date)
      (table.filter (tabularRangePred fromT toT))) (0, [])
    simp only [sumVals, List.map_nil, List.sum_nil] at hnet
    omega

/-- Witness for C1 at a concrete two-transaction table. -/
theorem tabular_balance_invariant_witness :
    (buildFinancialMovementsReport none none .day
          [⟨100, 0, "INCOME"⟩, ⟨40, 3600000, "EXPENSE"⟩]
        = .ok ⟨60, "COP", none, none, .day, [⟨"1970-01-01", 100, 40, 60⟩]⟩ ∧
      (∀ t ∈ ([⟨100, 0, "INCOME"⟩, ⟨40, 3600000, "EXPENSE"⟩] : List Tx).filter
          (tabularRangePred none none),
        t.txType = "INCOME" ∨ t.txType = "EXPENSE")) ∧
    ((⟨60, "COP", none, none, .day, [⟨"1970-01-01", 100, 40, 60⟩]⟩ : TabReport).balance
        = ((([⟨100, 0, "INCOME"⟩, ⟨40, 3600000, "EXPENSE"⟩] : List Tx).filter
            (tabularRangePred none none)).map
            (fun t => if t.txType = "INCOME" then t.amount
              else if t.txType = "EXPENSE" then -t.amount else 0)).sum
      ∧ (⟨60, "COP", none, none, .day, [⟨"1970-01-01", 100, 40, 60⟩]⟩ : TabReport).balance
        = ((⟨60, "COP", none, none, .day,
            [⟨"1970-01-01", 100, 40, 60⟩]⟩ : TabReport).series.map SeriesEntry.net).sum) :=
  ⟨⟨rfl, by decide⟩,
    tabular_balance_invariant none none .day
      [⟨100, 0, "INCOME"⟩, ⟨40, 3600000, "EXPENSE"⟩]
      ⟨60, "COP", none, none, .day, [⟨"1970-01-01", 100, 40, 60⟩]⟩ rfl (by decide)⟩

/-- C2 counterexample: a transaction of type `"TRANSFER"` is not
rejected; both builders succeed and silently book it as an expense
(balance `-5`, bucket expense `5`). -/
theorem unknown_type_counterexample :
    buildFinancialMovementsReport none none .all [⟨5, 0, "TRANSFER"⟩]
        = .ok ⟨-5, "COP", none, none, .all, [⟨"all", 0, 5, -5⟩]⟩
      ∧ buildFinancialMovementsChart 0 0 .day [⟨5, 0, "TRANSFER"⟩]
        = .ok ⟨0, 0, .day, ["1970-01-01"], [0], [5], [-5],
            [⟨"1970-01-01", 0, 5, -5⟩], 0, 5, -5,
            [⟨"income", "Income", [0]⟩, ⟨"expense", "Expenses", [5]⟩,
              ⟨"net", "Net", [-5]⟩]⟩ :=
  ⟨rfl, rfl⟩

/-- C2 (amended): a transaction whose type is neither INCOME nor EXPENSE
is never rejected; both aggregation loops silently treat it as an
EXPENSE — its amount is subtracted from the balance and added to the
bucket's (and totals') expense. -/
theorem unknown_type_amended (fromT toT : Option Int) (g : TabGranularity)
    (fromTs toTs : Int) (cg : ChartGranularity) (table : List Tx)
    (hrange : ∀ f u : Int, fromT = some f → toT = some u → f ≤ u)
    (hle : fromTs ≤ toTs) :
    (∃ r, buildFinancialMovementsReport fromT toT g table = .ok r ∧
      r.balance = signedSum (table.filter (tabularRangePred fromT toT)) ∧
      (r.series.map SeriesEntry.expense).sum
        = ((table.filter (tabularRangePred fromT toT)).map expensePart).sum) ∧
    (∃ c, buildFinancialMovementsChart fromTs toTs cg table = .ok c ∧
      c.totalsExpense
        = ((table.filter (chartRangePred fromTs (setUTCDateAdd toTs 1))).map
            expensePart).sum) := by
  have hperm : List.Perm
      (List.insertionSort (fun a b => a.date ≤ b.date)
        (table.filter (tabularRangePred fromT toT)))
      (table.filter (tabularRangePred fromT toT)) :=
    List.perm_insertionSort _ _
  have hbad : (match fromT, toT with
      | some f, some u => decide (u < f)
      | _, _ => false) = false := by
    cases fromT with
    | none => cases toT <;> rfl
    | some f =>
      cases toT with
      | none => rfl
      | some u => exact decide_eq_false (not_lt.mpr (hrange f u rfl rfl))
  constructor
  · unfold buildFinancialMovementsReport
    dsimp only
    rw [hbad]
    simp only [Bool.false_eq_true, if_false]
    refine ⟨_, rfl, ?_, ?_⟩
    · dsimp only
      rw [tabFold_balance]
      unfold signedSum
      rw [(hperm.map codeSigned).sum_eq]
      simp
    · dsimp only
      rw [List.map_map]
      have hcomp : (SeriesEntry.expense ∘ fun e : String × TabBucket =>
          (⟨e.1, e.2.income, e.2.expense, e.2.income - e.2.expense⟩ : SeriesEntry))
          = fun e => TabBucket.expense e.2 := rfl
      rw [hcomp]
      have hexp := tabFold_expense g (List.insertionSort (fun a b => a.date ≤ b.date)
        (table.filter (tabularRangePred fromT toT))) (0, [])
      simp only [sumVals, List.map_nil, List.sum_nil] at hexp
      rw [(hperm.map expensePart).sum_eq] at hexp
      exact hexp.trans (by simp)
  · unfold buildFinancialMovementsChart
    rw [if_neg (not_lt.mpr hle), fetch_ok fromTs toTs table hle]
    refine ⟨_, rfl, ?_⟩
    dsimp only
    rw [foldl_add_sum]
    have hperm2 : List.Perm
        (List.insertionSort (fun a b => compareBucket a b ≤ 0)
          (((List.insertionSort (fun a b : Tx => a.date ≤ b.date)
              (table.filter (chartRangePred fromTs (setUTCDateAdd toTs 1)))).foldl
            (chartStep cg) []).map Prod.fst))
        (((List.insertionSort (fun a b : Tx => a.date ≤ b.date)
            (table.filter (chartRangePred fromTs (setUTCDateAdd toTs 1)))).foldl
          (chartStep cg) []).map Prod.fst) :=
      List.perm_insertionSort _ _
    rw [(hperm2.map _).sum_eq]
    rw [sum_over_keys ChartBucket.expense ⟨0, 0, 0⟩ _
      (chartFold_nodup cg _ [] (by simp))]
    rw [chartFold_expense]
    have hperm3 : List.Perm
        (List.insertionSort (fun a b : Tx => a.date ≤ b.date)
          (table.filter (chartRangePred fromTs (setUTCDateAdd toTs 1))))
        (table.filter (chartRangePred fromTs (setUTCDateAdd toTs 1))) :=
      List.perm_insertionSort _ _
    rw [(hperm3.map expensePart).sum_eq]
    simp [sumVals]

/-- Witness for the amended C2 at a concrete `"TRANSFER"` transaction. -/
theorem unknown_type_amended_witness :
    ((∀ f u : Int, (none : Option Int) = some f → (none : Option Int) = some u → f ≤ u)
      ∧ (0 : Int) ≤ 0) ∧
    ((∃ r, buildFinancialMovementsReport none none .all [⟨5, 0, "TRANSFER"⟩] = .ok r ∧
        r.balance = signedSum (([⟨5, 0, "TRANSFER"⟩] : List Tx).filter
          (tabularRangePred none none)) ∧
        (r.series.map SeriesEntry.expense).sum
          = ((([⟨5, 0, "TRANSFER"⟩] : List Tx).filter
              (tabularRangePred none none)).map expensePart).sum) ∧
      (∃ c, buildFinancialMovementsChart 0 0 .day [⟨5, 0, "TRANSFER"⟩] = .ok c ∧
        c.totalsExpense
          = ((([⟨5, 0, "TRANSFER"⟩] : List Tx).filter
              (chartRangePred 0 (setUTCDateAdd 0 1))).map expensePart).sum)) :=
  ⟨⟨fun _ _ h _ => Option.noConfusion h, le_refl 0⟩,
    unknown_type_amended none none .all 0 0 .day [⟨5, 0, "TRANSFER"⟩]
      (fun _ _ h _ => Option.noConfusion h) (le_refl 0)⟩

/-- C3: when `from > to` both builders throw the date-range error before
the transaction source is queried — the result is the same error for
every transaction table, so no fetched data can influence it; when
`from = to` no error is raised, the report is produced, and the tabular
window degenerates to the single instant `date = to`. -/
theorem date_range_validation :
    (∀ (f u : Int) (g : TabGranularity) (table : List Tx), u < f →
      buildFinancialMovementsReport (some f) (some u) g table
        = .error "Invalid date range: 'from' date must be before or equal to 'to' date") ∧
    (∀ (f u : Int) (g : ChartGranularity) (table : List Tx), u < f →
      buildFinancialMovementsChart f u g table
        = .error "Invalid date range: 'from' date must be before or equal to 'to' date") ∧
    (∀ (T : Int) (g : TabGranularity) (table : List Tx),
      ∃ r, buildFinancialMovementsReport (some T) (some T) g table = .ok r) ∧
    (∀ (T : Int) (g : ChartGranularity) (table : List Tx),
      ∃ c, buildFinancialMovementsChart T T g table = .ok c) ∧
    (∀ (T : Int) (t : Tx),
      tabularRangePred (some T) (some T) t = true ↔ t.date = T) := by
  refine ⟨?_, ?_, ?_, ?_, ?_⟩
  · intro f u g table h
    unfold buildFinancialMovementsReport
    dsimp only
    rw [if_pos (decide_eq_true h)]
  · intro f u g table h
    unfold buildFinancialMovementsChart
    rw [if_pos h]
  · intro T g table
    unfold buildFinancialMovementsReport
    dsimp only
    rw [if_neg (by simp)]
    exact ⟨_, rfl⟩
  · intro T g table
    unfold buildFinancialMovementsChart
    rw [if_neg (lt_irrefl T), fetch_ok T T table le_rfl]
    exact ⟨_, rfl⟩
  · intro T t
    unfold tabularRangePred
    simp only [Bool.and_eq_true, decide_eq_true_eq]
    omega

/-- Witness for C3 at concrete bounds. -/
theorem date_range_validation_witness :
    ((0 : Int) < 1 ∧
      buildFinancialMovementsReport (some 1) (some 0) .day []
        = .error "Invalid date range: 'from' date must be before or equal to 'to' date" ∧
      buildFinancialMovementsChart 1 0 .day []
        = .error "Invalid date range: 'from' date must be before or equal to 'to' date") ∧
    (∃ r, buildFinancialMovementsReport (some 5) (some 5) .month [] = .ok r) ∧
    (∃ c, buildFinancialMovementsChart 5 5 .week [] = .ok c) ∧
    (tabularRangePred (some 5) (some 5) ⟨1, 5, "INCOME"⟩ = true ↔ (⟨1, 5, "INCOME"⟩ : Tx).date = 5) :=
  ⟨⟨by decide,
      date_range_validation.1 1 0 .day [] (by decide),
      date_range_validation.2.1 1 0 .day [] (by decide)⟩,
    date_range_validation.2.2.1 5 .month [],
    date_range_validation.2.2.2.1 5 .week [],
    date_range_validation.2.2.2.2 5 ⟨1, 5, "INCOME"⟩⟩

/-- C4: for a valid range whose `to` lies on a UTC midnight day
boundary, `buildUtcRangeExclusive` keeps `from` and advances `to` by
exactly one calendar day, so the exclusive filter `[from, to+1day)`
admits every transaction instant of the final day. -/
theorem utc_range_one_day (fromTs toTs : Int) (hle : fromTs ≤ toTs)
    (hmid : toTs % 86400000 = 0) :
    buildUtcRangeExclusive fromTs toTs = .ok (fromTs, toTs + msPerDay) ∧
    ∀ t : Tx, fromTs ≤ t.date → dayNumber t.date = dayNumber toTs →
      chartRangePred fromTs (toTs + msPerDay) t = true := by
  constructor
  · unfold buildUtcRangeExclusive validateDateRange
    rw [if_neg (by omega), setUTCDateAdd_eq]
    simp only [msPerDay]
    norm_num
  · intro t h1 h2
    unfold chartRangePred
    simp only [Bool.and_eq_true, decide_eq_true_eq]
    refine ⟨h1, ?_⟩
    unfold dayNumber at h2
    simp only [msPerDay]
    omega

/-- Witness for C4: `from = 1970-01-01T00:00Z`, `to = 1970-01-02T00:00Z`. -/
theorem utc_range_one_day_witness :
    ((0 : Int) ≤ 86400000 ∧ (86400000 : Int) % 86400000 = 0) ∧
    (buildUtcRangeExclusive 0 86400000 = .ok (0, 86400000 + msPerDay) ∧
      ∀ t : Tx, (0 : Int) ≤ t.date → dayNumber t.date = dayNumber 86400000 →
        chartRangePred 0 (86400000 + msPerDay) t = true) :=
  ⟨⟨by decide, by decide⟩, utc_range_one_day 0 86400000 (by decide) (by decide)⟩

/-- C5: for every timestamp, the `week` bucket key is the zero-padded
`YYYY-MM-DD` rendering of the civil date of `mondayOf`, where `mondayOf`
subtracts `(dayOfWeek + 6) mod 7` days (0=Sunday convention) from the
UTC-midnight truncation; that day is always a Monday and the original
timestamp falls inside its week.  Key derivation is a total function. -/
theorem week_bucket_is_monday (ts : Int) :
    bucketKeyUTC ts .week
        = ⟨dayKeyChars (civilFromDays (mondayOf ts)).1 (civilFromDays (mondayOf ts)).2.1
            (civilFromDays (mondayOf ts)).2.2⟩
      ∧ mondayOf ts = dayNumber ts - (getUTCDay ts + 6) % 7
      ∧ (mondayOf ts + 4) % 7 = 1
      ∧ mondayOf ts ≤ dayNumber ts
      ∧ dayNumber ts < mondayOf ts + 7 := by
  refine ⟨bucketKeyUTC_week_eq ts, rfl, ?_, ?_, ?_⟩ <;>
    · unfold mondayOf
      omega

/-- C6: the two meanings of granularity `all` are distinct — `toPeriod`
maps every date to the fixed key `"all"` so the tabular builder merges
all transactions into one series entry, while
`normalizeFinancialGranularity` renames `all` to `month` and month
bucketing keeps distinct months in distinct buckets. -/
theorem granularity_all_two_meanings :
    (∀ ts : Int, toPeriod ts .all = "all") ∧
    normalizeFinancialGranularity .all = .month ∧
    (∀ (fromT toT : Option Int) (table : List Tx) (r : TabReport),
      buildFinancialMovementsReport fromT toT .all table = .ok r →
      table.filter (tabularRangePred fromT toT) ≠ [] →
      r.series.length = 1 ∧ ∀ e ∈ r.series, e.period = "all") ∧
    (∀ ts1 ts2 : Int, bucketKeyUTC ts1 .month = bucketKeyUTC ts2 .month →
      getUTCFullYear ts1 = getUTCFullYear ts2 ∧ getUTCMonth ts1 = getUTCMonth ts2) := by
  refine ⟨fun ts => rfl, rfl, ?_, ?_⟩
  · intro fromT toT table r hok hne
    obtain ⟨st, hst, -, hser, -⟩ := tab_ok_inv fromT toT .all table r hok
    have hperm : List.Perm
        (List.insertionSort (fun a b => a.date ≤ b.date)
          (table.filter (tabularRangePred fromT toT)))
        (table.filter (tabularRangePred fromT toT)) :=
      List.perm_insertionSort _ _
    have htxs : List.insertionSort (fun a b => a.date ≤ b.date)
        (table.filter (tabularRangePred fromT toT)) ≠ [] := by
      intro h0
      rw [h0] at hperm
      exact hne hperm.symm.eq_nil
    have hne2 : st.2 ≠ [] := by
      rw [hst]
      rcases hl : List.insertionSort (fun a b => a.date ≤ b.date)
          (table.filter (tabularRangePred fromT toT)) with _ | ⟨t, rest⟩
      · exact absurd hl htxs
      · rw [hl, List.foldl_cons]
        exact tabFold_ne_nil .all rest _ (mapSet_ne_nil _ _ _)
    have hkeys : ∀ k ∈ st.2.map Prod.fst, k = "all" := by
      rw [hst]
      exact tabFold_all_keys _ (0, []) (by simp)
    have hnodup : (st.2.map Prod.fst).Nodup := by
      rw [hst]
      exact tabFold_nodup .all _ (0, []) (by simp)
    have hlen : (st.2.map Prod.fst).length = 1 :=
      nodup_const_singleton "all" hnodup hkeys
        (fun h0 => hne2 (List.map_eq_nil.mp h0))
    constructor
    · rw [hser, List.length_map]
      rw [List.length_map] at hlen
      exact hlen
    · intro e he
      rw [hser] at he
      rcases List.mem_map.mp he with ⟨b, hb, rfl⟩
      exact hkeys b.1 (List.mem_map.mpr ⟨b, hb, rfl⟩)
  · intro ts1 ts2 h
    unfold bucketKeyUTC at h
    dsimp only at h
    have hd : monthKeyChars (getUTCFullYear ts1) (getUTCMonth ts1 + 1)
        = monthKeyChars (getUTCFullYear ts2) (getUTCMonth ts2 + 1) :=
      congrArg String.data h
    have hb1 := civilFromDays_bounds (dayNumber ts1)
    have hb2 := civilFromDays_bounds (dayNumber ts2)
    have hinj := @monthKeyChars_inj (getUTCFullYear ts1) (getUTCMonth ts1 + 1)
      (getUTCFullYear ts2) (getUTCMonth ts2 + 1)
      ⟨by unfold getUTCMonth; omega, by unfold getUTCMonth; omega⟩
      ⟨by unfold getUTCMonth; omega, by unfold getUTCMonth; omega⟩ hd
    exact ⟨hinj.1, by omega⟩

/-- Witness for C6's conditional conjunct at a concrete table. -/
theorem granularity_all_two_meanings_witness :
    (buildFinancialMovementsReport none none .all
          [⟨100, 0, "INCOME"⟩, ⟨40, 2764800000, "EXPENSE"⟩]
        = .ok ⟨60, "COP", none, none, .all, [⟨"all", 100, 40, 60⟩]⟩ ∧
      ([⟨100, 0, "INCOME"⟩, ⟨40, 2764800000, "EXPENSE"⟩] : List Tx).filter
          (tabularRangePred none none) ≠ [] ∧
      bucketKeyUTC 0 .month = bucketKeyUTC 2764800000 .month →
        getUTCFullYear 0 = getUTCFullYear 2764800000 ∧
        getUTCMonth 0 = getUTCMonth 2764800000) ∧
    ((⟨60, "COP", none, none, .all, [⟨"all", 100, 40, 60⟩]⟩ : TabReport).series.length = 1 ∧
      ∀ e ∈ (⟨60, "COP", none, none, .all,
          [⟨"all", 100, 40, 60⟩]⟩ : TabReport).series, e.period = "all") :=
  ⟨fun h => granularity_all_two_meanings.2.2.2 0 2764800000 h.2.2,
    granularity_all_two_meanings.2.2.1 none none
      [⟨100, 0, "INCOME"⟩, ⟨40, 2764800000, "EXPENSE"⟩]
      ⟨60, "COP", none, none, .all, [⟨"all", 100, 40, 60⟩]⟩ rfl (by decide)⟩

/-- C7: every series entry of the tabular report satisfies
`net = income - expense`; for the chart report every point satisfies it,
`totals.net = totals.income - totals.expense`, and `totals.net` equals
the sum of the `net` series. -/
theorem net_consistency :
    (∀ (fromT toT : Option Int) (g : TabGranularity) (table : List Tx) (r : TabReport),
      buildFinancialMovementsReport fromT toT g table = .ok r →
      ∀ e ∈ r.series, e.net = e.income - e.expense) ∧
    (∀ (fromTs toTs : Int) (g : ChartGranularity) (table : List Tx) (c : ChartReport),
      buildFinancialMovementsChart fromTs toTs g table = .ok c →
      (∀ p ∈ c.points, p.net = p.income - p.expense) ∧
      c.totalsNet = c.totalsIncome - c.totalsExpense ∧
      c.totalsNet = c.seriesNet.sum) := by
  constructor
  · intro fromT toT g table r hok e he
    obtain ⟨st, -, -, hser, -⟩ := tab_ok_inv fromT toT g table r hok
    rw [hser] at he
    rcases List.mem_map.mp he with ⟨b, -, rfl⟩
    rfl
  · intro fromTs toTs g table c hok
    obtain ⟨-, buckets, hb, hl, hsi, hse, hsn, hp, hti, hte, htn⟩ :=
      chart_ok_inv fromTs toTs g table c hok
    have hinv : ∀ e ∈ buckets, e.2.net = e.2.income - e.2.expense := by
      rw [hb]
      exact chartFold_net g _ [] (by simp)
    have hmemlab : ∀ k ∈ c.labels,
        ((mapGet buckets k).getD ⟨0, 0, 0⟩).net
          = ((mapGet buckets k).getD ⟨0, 0, 0⟩).income
            - ((mapGet buckets k).getD ⟨0, 0, 0⟩).expense := by
      intro k hk
      have hk2 : k ∈ buckets.map Prod.fst := by
        rw [hl] at hk
        exact (List.perm_insertionSort _ _).mem_iff.mp hk
      rcases hg : mapGet buckets k with _ | v
      · exact absurd hk2 (mapGet_none_iff.mp hg)
      · simp only [Option.getD_some]
        exact hinv (k, v) (mapGet_mem hg)
    refine ⟨?_, ?_, ?_⟩
    · intro p hp2
      rw [hp, hsi, hse, hsn, mkPoints_maps] at hp2
      rcases List.mem_map.mp hp2 with ⟨k, hk, rfl⟩
      exact hmemlab k hk
    · rw [hti, hte, htn, foldl_add_sum, foldl_add_sum, foldl_add_sum, hsi, hse, hsn]
      rw [List.map_congr_left hmemlab, sum_map_sub]
    · rw [htn, hsn, foldl_add_sum]

/-- Witness for C7 at concrete tabular and chart builds. -/
theorem net_consistency_witness :
    (buildFinancialMovementsReport none none .day [⟨100, 0, "INCOME"⟩]
        = .ok ⟨100, "COP", none, none, .day, [⟨"1970-01-01", 100, 0, 100⟩]⟩ ∧
      buildFinancialMovementsChart 0 0 .day [⟨7, 3600000, "INCOME"⟩]
        = .ok ⟨0, 0, .day, ["1970-01-01"], [7], [0], [7],
            [⟨"1970-01-01", 7, 0, 7⟩], 7, 0, 7,
            [⟨"income", "Income", [7]⟩, ⟨"expense", "Expenses", [0]⟩,
              ⟨"net", "Net", [7]⟩]⟩) ∧
    (∀ e ∈ (⟨100, "COP", none, none, .day,
        [⟨"1970-01-01", 100, 0, 100⟩]⟩ : TabReport).series,
      e.net = e.income - e.expense) ∧
    ((∀ p ∈ (⟨0, 0, .day, ["1970-01-01"], [7], [0], [7],
          [⟨"1970-01-01", 7, 0, 7⟩], 7, 0, 7,
          [⟨"income", "Income", [7]⟩, ⟨"expense", "Expenses", [0]⟩,
            ⟨"net", "Net", [7]⟩]⟩ : ChartReport).points,
        p.net = p.income - p.expense) ∧
      (7 : Int) = 7 - 0 ∧ (7 : Int) = ([7] : List Int).sum) :=
  ⟨⟨rfl, rfl⟩,
    net_consistency.1 none none .day [⟨100, 0, "INCOME"⟩] _ rfl,
    net_consistency.2 0 0 .day [⟨7, 3600000, "INCOME"⟩]
      ⟨0, 0, .day, ["1970-01-01"], [7], [0], [7],
        [⟨"1970-01-01", 7, 0, 7⟩], 7, 0, 7,
        [⟨"income", "Income", [7]⟩, ⟨"expense", "Expenses", [0]⟩,
          ⟨"net", "Net", [7]⟩]⟩ rfl⟩

/-- C8: in every chart report the `labels`, `series.income`,
`series.expense`, `series.net` and `points` arrays have the same length,
points are labelled by `labels` in order, and `labels` is sorted
strictly ascending in the lexicographic string order. -/
theorem chart_arrays_sorted (fromTs toTs : Int) (g : ChartGranularity)
    (table : List Tx) (c : ChartReport)
    (hok : buildFinancialMovementsChart fromTs toTs g table = .ok c) :
    c.labels.length = c.seriesIncome.length ∧
    c.labels.length = c.seriesExpense.length ∧
    c.labels.length = c.seriesNet.length ∧
    c.labels.length = c.points.length ∧
    c.points.map ChartPoint.label = c.labels ∧
    List.Sorted (· < ·) c.labels := by
  obtain ⟨-, buckets, hb, hl, hsi, hse, hsn, hp, -, -, -⟩ :=
    chart_ok_inv fromTs toTs g table c hok
  have hnodup : (buckets.map Prod.fst).Nodup := by
    rw [hb]
    exact chartFold_nodup g _ [] (by simp)
  have hlperm : List.Perm c.labels (buckets.map Prod.fst) := by
    rw [hl]
    exact List.perm_insertionSort _ _
  refine ⟨?_, ?_, ?_, ?_, ?_, ?_⟩
  · rw [hsi, List.length_map]
  · rw [hse, List.length_map]
  · rw [hsn, List.length_map]
  · rw [hp, hsi, hse, hsn, mkPoints_maps, List.length_map]
  · rw [hp, hsi, hse, hsn, mkPoints_maps, List.map_map]
    have hcomp : (ChartPoint.label ∘ fun k =>
        (⟨k, ((mapGet buckets k).getD ⟨0, 0, 0⟩).income,
          ((mapGet buckets k).getD ⟨0, 0, 0⟩).expense,
          ((mapGet buckets k).getD ⟨0, 0, 0⟩).net⟩ : ChartPoint)) = id := rfl
    rw [hcomp, List.map_id]
  · have hsorted : List.Sorted (fun a b => compareBucket a b ≤ 0) c.labels := by
      rw [hl]
      exact List.sorted_insertionSort _ _
    have hle2 : List.Sorted (· ≤ ·) c.labels :=
      hsorted.imp (fun h => (compareBucket_le_iff _ _).mp h)
    have hnd : c.labels.Nodup := hlperm.nodup_iff.mpr hnodup
    exact hle2.lt_of_le hnd

set_option maxHeartbeats 2000000 in
/-- Witness for C8 at a two-bucket chart build. -/
theorem chart_arrays_sorted_witness :
    buildFinancialMovementsChart 0 86400000 .day
        [⟨5, 0, "EXPENSE"⟩, ⟨3, 90000000, "INCOME"⟩]
      = .ok ⟨0, 86400000, .day, ["1970-01-01", "1970-01-02"], [0, 3], [5, 0], [-5, 3],
          [⟨"1970-01-01", 0, 5, -5⟩, ⟨"1970-01-02", 3, 0, 3⟩], 3, 5, -2,
          [⟨"income", "Income", [0, 3]⟩, ⟨"expense", "Expenses", [5, 0]⟩,
            ⟨"net", "Net", [-5, 3]⟩]⟩ ∧
    ((["1970-01-01", "1970-01-02"] : List String).length = ([0, 3] : List Int).length ∧
      (["1970-01-01", "1970-01-02"] : List String).length = ([5, 0] : List Int).length ∧
      (["1970-01-01", "1970-01-02"] : List String).length = ([-5, 3] : List Int).length ∧
      (["1970-01-01", "1970-01-02"] : List String).length
        = ([⟨"1970-01-01", 0, 5, -5⟩, ⟨"1970-01-02", 3, 0, 3⟩] : List ChartPoint).length ∧
      ([⟨"1970-01-01", 0, 5, -5⟩, ⟨"1970-01-02", 3, 0, 3⟩] : List ChartPoint).map
          ChartPoint.label = ["1970-01-01", "1970-01-02"] ∧
      List.Sorted (· < ·) (["1970-01-01", "1970-01-02"] : List String)) := by
  have hok : buildFinancialMovementsChart 0 86400000 .day
      [⟨5, 0, "EXPENSE"⟩, ⟨3, 90000000, "INCOME"⟩]
      = .ok ⟨0, 86400000, .day, ["1970-01-01", "1970-01-02"], [0, 3], [5, 0], [-5, 3],
          [⟨"1970-01-01", 0, 5, -5⟩, ⟨"1970-01-02", 3, 0, 3⟩], 3, 5, -2,
          [⟨"income", "Income", [0, 3]⟩, ⟨"expense", "Expenses", [5, 0]⟩,
            ⟨"net", "Net", [-5, 3]⟩]⟩ := rfl
  exact ⟨hok, chart_arrays_sorted 0 86400000 .day
    [⟨5, 0, "EXPENSE"⟩, ⟨3, 90000000, "INCOME"⟩] _ hok⟩

/-- C9 counterexample: the CSV line count is **not** `5 + 1 + 1 +
series.length` for every report value: a report whose `period` field
contains a newline yields extra lines when the encoded CSV is split on
newline, because `esc` quotes such a field but keeps the newline
character inside it. -/
theorem csv_line_count_counterexample :
    (splitSep '\n' (financialMovementsReportToCsv
        ⟨0, "COP", none, none, .all, [⟨⟨['a', '\n', 'b']⟩, 0, 0, 0⟩]⟩).data).length
      ≠ 5 + 1 + 1
          + ([(⟨⟨['a', '\n', 'b']⟩, 0, 0, 0⟩ : SeriesEntry)] : List SeriesEntry).length := by
  decide

/-- C9 (amended): for every report whose `currency`, `from`, `to` and
period strings contain no newline — which holds for every report the
tabular builder produces — splitting the encoded CSV on newline yields
exactly `5 + 1 + 1 + series.length` lines: five metadata lines, one
blank line, one header line, and one data line per series entry. -/
theorem csv_line_count (r : TabReport)
    (hcur : '\n' ∉ r.currency.data)
    (hfrom : '\n' ∉ (r.fromIso.getD "").data)
    (hto : '\n' ∉ (r.toIso.getD "").data)
    (hser : ∀ e ∈ r.series, '\n' ∉ e.period.data) :
    (splitSep '\n' (financialMovementsReportToCsv r).data).length
      = 5 + 1 + 1 + r.series.length := by
  have hlines := csvLines_no_newline r hcur hfrom hto hser
  have hlen := csvLines_length r
  rcases hne : csvLines r with _ | ⟨l, ls⟩
  · rw [hne] at hlen
    simp at hlen
    exact absurd hlen (by omega)
  · rw [hne] at hlen hlines
    have hsplit : splitSep '\n' (joinSep '\n' (l :: ls)) = l :: ls :=
      splitSep_joinSep '\n' l ls hlines
    show (splitSep '\n' (joinSep '\n' (csvLines r))).length = _
    rw [hne, hsplit, hlen]

/-- Witness for C9 at a clean concrete report. -/
theorem csv_line_count_witness :
    (∀ e ∈ ([⟨"all", 3, 5, -2⟩] : List SeriesEntry), '\n' ∉ e.period.data) ∧
    (splitSep '\n' (financialMovementsReportToCsv
        ⟨0, "COP", none, none, .all, [⟨"all", 3, 5, -2⟩]⟩).data).length
      = 5 + 1 + 1 + ([(⟨"all", 3, 5, -2⟩ : SeriesEntry)] : List SeriesEntry).length :=
  ⟨by decide,
    csv_line_count ⟨0, "COP", none, none, .all, [⟨"all", 3, 5, -2⟩]⟩
      (by decide) (by decide) (by decide) (by decide)⟩

/-- C10: the tabular builder's upper bound is inclusive: with a supplied
`to` bound `u`, a transaction satisfying the `from` side passes the
filter exactly when `date ≤ u`; in particular a transaction whose date
equals `u` is kept by the builder's `where` filter, one with `u < date`
is dropped, and the builder consumes exactly the transactions passing
`tabularRangePred` — no one-day advancement is applied on this path. -/
theorem tabular_upper_bound_inclusive (fromT : Option Int) (u : Int) (t : Tx)
    (hfrom : tabularRangePred fromT none t = true) :
    (tabularRangePred fromT (some u) t = true ↔ t.date ≤ u) ∧
    (t.date = u → ∀ table : List Tx, t ∈ table →
      t ∈ table.filter (tabularRangePred fromT (some u))) ∧
    (u < t.date → ∀ table : List Tx,
      t ∉ table.filter (tabularRangePred fromT (some u))) ∧
    (∀ (table : List Tx) (g : TabGranularity),
      buildFinancialMovementsReport fromT (some u) g table
        = buildFinancialMovementsReport fromT (some u) g
            (table.filter (tabularRangePred fromT (some u)))) := by
  have h1 : tabularRangePred fromT (some u) t = true ↔ t.date ≤ u := by
    cases fromT with
    | none =>
      unfold tabularRangePred
      simp
    | some f =>
      unfold tabularRangePred at hfrom ⊢
      simp only [Bool.and_eq_true, decide_eq_true_eq] at hfrom ⊢
      constructor
      · exact fun h => h.2
      · exact fun h => ⟨hfrom.1, h⟩
  refine ⟨h1, ?_, ?_, ?_⟩
  · intro hdate table htable
    exact List.mem_filter.mpr ⟨htable, h1.mpr (le_of_eq hdate)⟩
  · intro hlt table hmem
    have hle := h1.mp (List.mem_filter.mp hmem).2
    omega
  · intro table g
    unfold buildFinancialMovementsReport
    rw [List.filter_filter]
    have hpp : (fun a => tabularRangePred fromT (some u) a
        && tabularRangePred fromT (some u) a) = tabularRangePred fromT (some u) := by
      funext a
      rw [Bool.and_self]
    rw [hpp]

/-- Witness for C10 at a boundary transaction whose date equals the
supplied upper bound. -/
theorem tabular_upper_bound_inclusive_witness :
    tabularRangePred (some 10) none ⟨7, 50, "INCOME"⟩ = true ∧
    ((tabularRangePred (some 10) (some 50) ⟨7, 50, "INCOME"⟩ = true
        ↔ (⟨7, 50, "INCOME"⟩ : Tx).date ≤ 50) ∧
      ((⟨7, 50, "INCOME"⟩ : Tx).date = 50 → ∀ table : List Tx,
        (⟨7, 50, "INCOME"⟩ : Tx) ∈ table →
        (⟨7, 50, "INCOME"⟩ : Tx) ∈ table.filter (tabularRangePred (some 10) (some 50))) ∧
      ((50 : Int) < (⟨7, 50, "INCOME"⟩ : Tx).date → ∀ table : List Tx,
        (⟨7, 50, "INCOME"⟩ : Tx) ∉ table.filter (tabularRangePred (some 10) (some 50))) ∧
      (∀ (table : List Tx) (g : TabGranularity),
        buildFinancialMovementsReport (some 10) (some 50) g table
          = buildFinancialMovementsReport (some 10) (some 50) g
              (table.filter (tabularRangePred (some 10) (some 50))))) :=
  ⟨by decide,
    tabular_upper_bound_inclusive (some 10) 50 ⟨7, 50, "INCOME"⟩ (by decide)⟩
